import Mathlib

/-! ## HPSC tutorial 1: blocking send/receive exchange

A shallow embedding of `HPSC_tut1_send_recv.c`.  The body of `main` is
translated to the sequence of calls it performs for a given group size `np`
and rank `me` (the only values its control flow depends on); a process is a
record holding the remaining calls, its two buffers and its console output;
the group of processes together with the messages held by the transport is a
`World`, and `stepRank` is the transition one process can take.
-/

namespace HPSC

/-! ## Constants of `main` -/

/-- Reduction of an integer to the range of a 32-bit signed `int`. -/
def wrapInt32 (z : Int) : Int := (z + 2147483648) % 4294967296 - 2147483648

/-- `const int K = 1024;` -/
def K : Int := 1024

/-- `const int msgsize = 256*K;` as `int` arithmetic. -/
def msgsizeInt : Int := wrapInt32 (256 * K)

/-- The element count passed to every `MPI_Send` and `MPI_Recv`.  (Irreducible:
the proofs below never unfold a buffer of this length.) -/
@[irreducible]
def msgsize : Nat := msgsizeInt.toNat

/-- `int tag = 42;` -/
def tag : Nat := 42

/-- The value of `msgsize*sizeof(int)` for a message of `count` elements:
arithmetic in `size_t`, which has `sizeBits` bits, for an `int` of `sizeofInt`
bytes. -/
def msgBytes (count sizeofInt sizeBits : Nat) : Nat := (count * sizeofInt) % 2 ^ sizeBits

/-! ## Console output -/

/-- The lines `main` can print. -/
inductive Out where
  | wrongSize
  | msgSize (bytes : Nat)
  | sending (me : Nat)
  | receiving (me : Nat)
  | yValue (v : Int)
  deriving DecidableEq

/-- The text of a printed line, as formatted by the `printf` calls. -/
def Out.render : Out → String
  | .wrongSize => "You have to use exactly 2 processes to run this program\n"
  | .msgSize bytes => "Message size is " ++ toString bytes ++ " bytes\n"
  | .sending me => "Process " ++ toString me ++ " sending to process 1\n"
  | .receiving me => "Process " ++ toString me ++ " receiving from process 1\n"
  | .yValue v => "Y now has the value " ++ toString v ++ "\n"

/-! ## The calls of `main` -/

/-- The two message buffers of a process. -/
inductive BufId where
  | X
  | Y
  deriving DecidableEq

/-- One call (or the initialisation loop) in the body of `main`. -/
inductive Action where
  | printWrongSize
  | printMsgSize (count : Nat)
  | printSending
  | printReceiving
  | printY0
  | malloc (b : BufId) (count : Nat)
  | initXY (count : Nat)
  | send (b : BufId) (count dest tg : Nat)
  | recv (b : BufId) (count source tg : Nat)
  | finalize
  | exit (status : Int)
  deriving DecidableEq

/-- Whether the call is a communication call (`MPI_Send` or `MPI_Recv`). -/
def Action.isComm : Action → Bool
  | .send _ _ _ _ => true
  | .recv _ _ _ _ => true
  | _ => false

/-- The test `np != 2` of the group-size check. -/
def wrongGroupSize (np : Nat) : Bool := np != 2

/-- The two allocations and the initialisation loop (lines 41 to 49), for a
message of `count` elements. -/
def prologue (count : Nat) : List Action :=
  [.malloc .X count, .malloc .Y count, .initXY count]

/-- The branch `if (me == 0)` of the dispatch (lines 53 to 59). -/
def initiatorBranch (count : Nat) : List Action :=
  [.printMsgSize count, .printSending, .send .X count 1 tag,
   .printReceiving, .recv .Y count 1 tag, .printY0]

/-- The `else` branch of the dispatch (lines 63 and 64). -/
def responderBranch (count : Nat) : List Action :=
  [.recv .Y count 0 tag, .send .Y count 0 tag]

/-- The shutdown and exit (lines 90 and 91). -/
def epilogue : List Action := [.finalize, .exit 0]

/-- The group-size check (lines 31 to 38): the calls made inside
`if (np != 2) { ... }`, none when the group has two processes. -/
def sizeCheck (np me : Nat) : List Action :=
  if wrongGroupSize np then
    (if me = 0 then [.printWrongSize] else []) ++ [.finalize, .exit 0]
  else []

/-- The calls in the body of `main`, in order, in a group of `np` processes at
rank `me`, after `MPI_Init`, `MPI_Comm_size` and `MPI_Comm_rank`, as a
function of the value `count` of its constant `msgsize`.  (A call to `exit`
ends the process: the calls listed after it are not made, see `exec`.) -/
def mainBody (count np me : Nat) : List Action :=
  sizeCheck np me ++ prologue count
    ++ (if me = 0 then initiatorBranch count else responderBranch count) ++ epilogue

/-- The calls of `main`. -/
def mainProg (np me : Nat) : List Action := mainBody msgsize np me

/-- The calls of `main` once the `if`/`else` of the dispatch is removed, the
variant whose output the comment on lines 67 to 88 records: every process runs
the body of both branches, one after the other. -/
def noDispatchBody (count np me : Nat) : List Action :=
  sizeCheck np me ++ prologue count ++ initiatorBranch count ++ responderBranch count
    ++ epilogue

/-- The variant without dispatch, for the `msgsize` of `main`. -/
def mainProgNoDispatch (np me : Nat) : List Action := noDispatchBody msgsize np me

/-- Modelled from the spec: the symmetric exchange of section 4.1 (deadlock
characterization), a program that is not among the sources.  Both endpoints
run `send` then `recv`, each naming the other rank as its peer. -/
def specSymmetricBody (count np me : Nat) : List Action :=
  sizeCheck np me ++ prologue count
    ++ [.printMsgSize count, .printSending, .send .X count (1 - me) tag,
        .printReceiving, .recv .Y count (1 - me) tag, .printY0]
    ++ epilogue

/-- The symmetric exchange of the spec, for the `msgsize` of `main`. -/
def specSymmetricProg (np me : Nat) : List Action := specSymmetricBody msgsize np me

/-! ## Processes -/

/-- The abstract state of an endpoint in the protocol's state machine. -/
inductive Phase where
  | Idle
  | Sending
  | Receiving
  | Done
  | Failed
  deriving DecidableEq

/-- An entry of the record a process keeps of the calls it made: a call that
ran to completion at once, a blocking call that was entered, or a blocking
call that returned. -/
inductive Ev where
  | did (a : Action)
  | posted (a : Action)
  | returned (a : Action)
  deriving DecidableEq

/-- Parameters of the environment that `main` does not fix: the largest
element count the transport buffers on its own, the size of an `int` and of
`size_t`, and the content of freshly allocated memory (by rank, buffer and
index). -/
structure Config where
  threshold : Nat
  sizeofInt : Nat
  sizeBits : Nat
  uninit : Nat → BufId → Nat → Int

/-- One process of the group.  `prog` holds the calls still to be made, the
head being the current one; `inCall` says that the process is inside the
blocking call at the head.  `trace` and `hist` are records kept for the
statements below: the calls made so far and the phases passed through. -/
structure Proc where
  me : Nat
  prog : List Action
  inCall : Bool
  X : Option (List Int)
  Y : Option (List Int)
  out : List Out
  status : Option Int
  failed : Bool
  trace : List Ev
  hist : List Phase
  deriving DecidableEq

/-- The buffer a call names. -/
def Proc.buf (p : Proc) : BufId → Option (List Int)
  | .X => p.X
  | .Y => p.Y

/-- Assignment to the buffer a call names. -/
def Proc.setBuf (p : Proc) (b : BufId) (v : List Int) : Proc :=
  match b with
  | .X => { p with X := some v }
  | .Y => { p with Y := some v }

/-- The phase of the protocol state machine a process is in: inside a send,
inside a receive, and otherwise `Idle` while a communication call is still
ahead of it and `Done` once none is. -/
def phaseOf (p : Proc) : Phase :=
  if p.failed then .Failed
  else
    match p.inCall, p.prog with
    | true, .send _ _ _ _ :: _ => .Sending
    | true, .recv _ _ _ _ :: _ => .Receiving
    | _, prog => if prog.any Action.isComm then .Idle else .Done

/-- Appends the current phase to the history when it has changed. -/
def Proc.record (p : Proc) : Proc :=
  if p.hist.getLast? = some (phaseOf p) then p
  else { p with hist := p.hist ++ [phaseOf p] }

/-- The process `main` is at rank `me` in a group of `np`, right after the
bootstrap calls. -/
def initProc (prog : List Action) (me : Nat) : Proc :=
  Proc.record
    { me := me, prog := prog, inCall := false, X := none, Y := none, out := [],
      status := none, failed := false, trace := [], hist := [] }

/-- The loop `for (i=0; i<msgsize; i++) { X[i] = 12345; Y[i] = me; }`. -/
def initLoop (me : Int) (n : Nat) (X Y : List Int) : List Int × List Int :=
  (List.range n).foldl (fun xy i => (xy.1.set i 12345, xy.2.set i me)) (X, Y)

/-- Effect of a call that does not communicate, `rest` being the calls after
it.  There is no result where C leaves the behaviour undefined (a buffer used
before it is allocated, or beyond its length). -/
def exec (cfg : Config) (p : Proc) (a : Action) (rest : List Action) : Option Proc :=
  let q : Proc := { p with prog := rest, trace := p.trace ++ [.did a] }
  match a with
  | .printWrongSize => some { q with out := p.out ++ [.wrongSize] }
  | .printMsgSize n =>
      some { q with out := p.out ++ [.msgSize (msgBytes n cfg.sizeofInt cfg.sizeBits)] }
  | .printSending => some { q with out := p.out ++ [.sending p.me] }
  | .printReceiving => some { q with out := p.out ++ [.receiving p.me] }
  | .printY0 =>
      match p.Y.bind (fun y => y[0]?) with
      | some v => some { q with out := p.out ++ [.yValue v] }
      | none => none
  | .malloc b n => some (q.setBuf b ((List.range n).map (cfg.uninit p.me b)))
  | .initXY n =>
      match p.X, p.Y with
      | some x, some y =>
          if n ≤ x.length ∧ n ≤ y.length then
            some { q with X := some (initLoop p.me n x y).1, Y := some (initLoop p.me n x y).2 }
          else none
      | _, _ => none
  | .finalize => some q
  | .exit st => some { q with prog := [], status := some st }
  | .send _ _ _ _ => none
  | .recv _ _ _ _ => none

/-- Entering the blocking call at the head of the program. -/
def enterCall (p : Proc) (a : Action) : Proc :=
  Proc.record { p with inCall := true, trace := p.trace ++ [.posted a] }

/-- Returning from the blocking call `a`, `rest` being the calls after it. -/
def returnFrom (p : Proc) (a : Action) (rest : List Action) : Proc :=
  Proc.record { p with inCall := false, prog := rest, trace := p.trace ++ [.returned a] }

/-- The `count` elements a send reads from buffer `b`. -/
def sendData (p : Proc) (b : BufId) (count : Nat) : Option (List Int) :=
  match p.buf b with
  | some v => if count ≤ v.length then some (v.take count) else none
  | none => none

/-- Modelled from the spec: the receiving side of `MPI_Recv` (the MPI library
is no part of the repository).  Arrival of `data` at a process inside the
receive `recv b cap src tg`: the message is copied to the front of the buffer
and the call returns, or, when the message is longer than the posted capacity,
the receive fails (`SizeMismatch`) and the buffer is left as it was. -/
def deliver (p : Proc) (b : BufId) (cap src tg : Nat) (rest : List Action)
    (data : List Int) : Option Proc :=
  match p.buf b with
  | some v =>
      if cap ≤ v.length then
        if data.length ≤ cap then
          some (returnFrom (p.setBuf b (data ++ v.drop data.length)) (.recv b cap src tg) rest)
        else some (Proc.record { p with failed := true })
      else none
  | none => none

/-! ## The transport and the group -/

/-- A message held by the transport. -/
structure Msg where
  src : Nat
  dst : Nat
  tg : Nat
  data : List Int
  deriving DecidableEq

/-- Record of one completed transfer: the envelope of the send, and the
source, tag and capacity the matching receive was posted with. -/
structure Transfer where
  src : Nat
  dst : Nat
  tg : Nat
  count : Nat
  recvSource : Nat
  recvTag : Nat
  capacity : Nat
  deriving DecidableEq

/-- The group: the processes by rank, the messages the transport holds, and
the record of the transfers completed so far. -/
structure World where
  procs : List Proc
  chan : List Msg
  log : List Transfer
  deriving DecidableEq

/-- A message matches a receive posted at `dst` for `(src, tg)`. -/
def Msg.matches (m : Msg) (src dst tg : Nat) : Bool :=
  m.src == src && m.dst == dst && m.tg == tg

/-- The first held message matching `(src, dst, tg)`, and the others. -/
def takeMsg (src dst tg : Nat) : List Msg → Option (Msg × List Msg)
  | [] => none
  | m :: ms =>
      if m.matches src dst tg then some (m, ms)
      else (takeMsg src dst tg ms).map (fun r => (r.1, m :: r.2))

/-- Modelled from the spec: `MPI_Send` (the MPI library is no part of the
repository).  A process inside `send b count dest tg` returns once the message
is handed off: a message of at most `threshold` elements is taken over by the
transport; a larger one (above the buffering threshold, in the words of the
glossary) is handed over only to a matching receive in progress at `dest`, and
not ahead of a held message with the same envelope. -/
def completeSend (cfg : Config) (w : World) (r : Nat) (p : Proc)
    (b : BufId) (count dest tg : Nat) (rest : List Action) : Option World :=
  match sendData p b count with
  | none => none
  | some data =>
      let p1 := returnFrom p (.send b count dest tg) rest
      if count ≤ cfg.threshold then
        some { w with procs := w.procs.set r p1, chan := w.chan ++ [⟨r, dest, tg, data⟩] }
      else
        match w.procs[dest]? with
        | none => none
        | some q =>
            if q.failed ∨ q.inCall = false then none
            else
              match q.prog with
              | .recv b1 cap src tg1 :: rest1 =>
                  if src = r ∧ tg1 = tg ∧ (takeMsg r dest tg w.chan).isNone then
                    match deliver q b1 cap src tg1 rest1 data with
                    | none => none
                    | some q1 =>
                        some
                          { procs := (w.procs.set r p1).set dest q1
                            chan := w.chan
                            log := if q1.failed then w.log
                                   else w.log ++ [⟨r, dest, tg, data.length, src, tg1, cap⟩] }
                  else none
              | _ => none

/-- Modelled from the spec: `MPI_Recv` (the MPI library is no part of the
repository).  A process inside `recv b cap src tg` takes the first held
message sent by `src` to it with tag `tg`. -/
def completeRecv (w : World) (r : Nat) (p : Proc)
    (b : BufId) (cap src tg : Nat) (rest : List Action) : Option World :=
  match takeMsg src r tg w.chan with
  | none => none
  | some (m, chan1) =>
      match deliver p b cap src tg rest m.data with
      | none => none
      | some p1 =>
          some { procs := w.procs.set r p1, chan := chan1,
                 log := if p1.failed then w.log
                        else w.log ++ [⟨m.src, r, m.tg, m.data.length, src, tg, cap⟩] }

/-- The transition of the group in which the process of rank `r` moves, if it
can: it runs its next call, enters a blocking call, or completes the blocking
call it is in. -/
def stepRank (cfg : Config) (r : Nat) (w : World) : Option World :=
  match w.procs[r]? with
  | none => none
  | some p =>
      if p.failed ∨ p.status.isSome then none
      else
        match p.prog with
        | [] => none
        | a :: rest =>
            match a with
            | .send b count dest tg =>
                if p.inCall then completeSend cfg w r p b count dest tg rest
                else some { w with procs := w.procs.set r (enterCall p a) }
            | .recv b cap src tg =>
                if p.inCall then completeRecv w r p b cap src tg rest
                else some { w with procs := w.procs.set r (enterCall p a) }
            | _ => (exec cfg p a rest).map (fun p1 => { w with procs := w.procs.set r p1.record })

/-- One transition of the group. -/
def Step (cfg : Config) (w w1 : World) : Prop := ∃ r, stepRank cfg r w = some w1

/-- The states the group can reach from `w`. -/
def Reach (cfg : Config) (w w1 : World) : Prop := Relation.ReflTransGen (Step cfg) w w1

/-- The group of `np` processes running `prog np me` at rank `me`. -/
def initWorld (prog : Nat → Nat → List Action) (np : Nat) : World :=
  { procs := (List.range np).map (fun me => initProc (prog np me) me), chan := [], log := [] }

/-- Runs the group under a schedule, the list of the ranks that move. -/
def run (cfg : Config) : List Nat → World → Option World
  | [], w => some w
  | r :: rs, w => (stepRank cfg r w).bind (run cfg rs)

/-- The process of rank `r` has called `exit`. -/
def World.exited (w : World) (r : Nat) : Bool :=
  match w.procs[r]? with
  | some p => p.status.isSome
  | none => false

/-! ## The reachable states of the two-process run

The states the two-process run passes through are listed by two counters, the
number of transitions rank 0 and rank 1 have taken part in. -/

/-- The record of calls rank 0 has made by the end of its run. -/
def trace0 (n : Nat) : List Ev :=
  [.did (.malloc .X n), .did (.malloc .Y n), .did (.initXY n),
   .did (.printMsgSize n), .did .printSending,
   .posted (.send .X n 1 tag), .returned (.send .X n 1 tag),
   .did .printReceiving,
   .posted (.recv .Y n 1 tag), .returned (.recv .Y n 1 tag),
   .did .printY0, .did .finalize, .did (.exit 0)]

/-- The record of calls rank 1 has made by the end of its run. -/
def trace1 (n : Nat) : List Ev :=
  [.did (.malloc .X n), .did (.malloc .Y n), .did (.initXY n),
   .posted (.recv .Y n 0 tag), .returned (.recv .Y n 0 tag),
   .posted (.send .Y n 0 tag), .returned (.send .Y n 0 tag),
   .did .finalize, .did (.exit 0)]

/-- The lines rank 0 has printed by the end of its run. -/
def out0 (cfg : Config) (n : Nat) : List Out :=
  [.msgSize (msgBytes n cfg.sizeofInt cfg.sizeBits), .sending 0, .receiving 0, .yValue 12345]

/-- Rank 0 of the two-process run after `i` transitions: 6 is inside the
send, 9 inside the receive, 13 after `exit`. -/
def L0 (cfg : Config) (n i : Nat) : Proc :=
  { me := 0
    prog := (mainBody n 2 0).drop
      (if i ≤ 5 then i else if i = 6 then 5 else if i ≤ 8 then i - 1
       else if i = 9 then 7 else i - 2)
    inCall := decide (i = 6 ∨ i = 9)
    X := if i = 0 then none
         else if i ≤ 2 then some ((List.range n).map (cfg.uninit 0 .X))
         else some (List.replicate n 12345)
    Y := if i ≤ 1 then none
         else if i = 2 then some ((List.range n).map (cfg.uninit 0 .Y))
         else if i ≤ 9 then some (List.replicate n 0)
         else some (List.replicate n 12345)
    out := (out0 cfg n).take
      (if i ≤ 3 then 0 else if i = 4 then 1 else if i ≤ 7 then 2 else if i ≤ 10 then 3 else 4)
    status := if 13 ≤ i then some 0 else none
    failed := false
    trace := (trace0 n).take i
    hist := [Phase.Idle, .Sending, .Idle, .Receiving, .Done].take
      (if i ≤ 5 then 1 else if i = 6 then 2 else if i ≤ 8 then 3 else if i = 9 then 4 else 5) }

/-- Rank 1 of the two-process run after `j` transitions: 4 is inside the
receive, 6 inside the send, 9 after `exit`. -/
def L1 (cfg : Config) (n j : Nat) : Proc :=
  { me := 1
    prog := (mainBody n 2 1).drop
      (if j ≤ 3 then j else if j = 4 then 3 else if j ≤ 6 then 4 else j - 2)
    inCall := decide (j = 4 ∨ j = 6)
    X := if j = 0 then none
         else if j ≤ 2 then some ((List.range n).map (cfg.uninit 1 .X))
         else some (List.replicate n 12345)
    Y := if j ≤ 1 then none
         else if j = 2 then some ((List.range n).map (cfg.uninit 1 .Y))
         else if j ≤ 4 then some (List.replicate n 1)
         else some (List.replicate n 12345)
    out := []
    status := if 9 ≤ j then some 0 else none
    failed := false
    trace := (trace1 n).take j
    hist := [Phase.Idle, .Receiving, .Idle, .Sending, .Done].take
      (if j ≤ 3 then 1 else if j = 4 then 2 else if j = 5 then 3 else if j = 6 then 4 else 5) }

/-- The message of rank 0 while the transport holds it. -/
def msg01 (n : Nat) : Msg := ⟨0, 1, tag, List.replicate n 12345⟩

/-- The message of rank 1 while the transport holds it. -/
def msg10 (n : Nat) : Msg := ⟨1, 0, tag, List.replicate n 12345⟩

/-- The group of the two-process run when rank 0 has taken `i` transitions and
rank 1 has taken `j`. -/
def W (cfg : Config) (n i j : Nat) : World :=
  { procs := [L0 cfg n i, L1 cfg n j]
    chan := (if 7 ≤ i ∧ j < 5 then [msg01 n] else [])
        ++ (if 7 ≤ j ∧ i < 10 then [msg10 n] else [])
    log := (if 5 ≤ j then [⟨0, 1, tag, n, 0, tag, n⟩] else [])
        ++ (if 10 ≤ i then [⟨1, 0, tag, n, 1, tag, n⟩] else []) }

/-- The pairs of counters that occur: a receive has returned only after the
matching send has, and a send above the threshold returns together with the
matching receive. -/
def Valid (cfg : Config) (n i j : Nat) : Prop :=
  i ≤ 13 ∧ j ≤ 9 ∧ (5 ≤ j → 7 ≤ i) ∧ (10 ≤ i → 7 ≤ j) ∧
    (cfg.threshold < n → (7 ≤ i → 5 ≤ j) ∧ (7 ≤ j → 10 ≤ i))

/-- The counters after the transition of rank 0, if it has one. -/
def next0 (cfg : Config) (n i j : Nat) : Option (Nat × Nat) :=
  if i = 6 then
    if n ≤ cfg.threshold then some (7, j)
    else if j = 4 then some (7, 5) else none
  else if i = 9 then
    if 7 ≤ j then some (10, j) else none
  else if 13 ≤ i then none
  else some (i + 1, j)

/-- The counters after the transition of rank 1, if it has one. -/
def next1 (cfg : Config) (n i j : Nat) : Option (Nat × Nat) :=
  if j = 4 then
    if 7 ≤ i then some (i, 5) else none
  else if j = 6 then
    if n ≤ cfg.threshold then some (i, 7)
    else if i = 9 then some (10, 7) else none
  else if 9 ≤ j then none
  else some (i, j + 1)

/-! ## Notions used in the statements -/

/-- Element `i` of buffer `b` of the process of rank `r`. -/
def World.cell (w : World) (r : Nat) (b : BufId) (i : Nat) : Option Int :=
  (w.procs[r]?).bind (fun p => (p.buf b).bind (fun v => v[i]?))

/-- The phase of the process of rank `r`. -/
def World.phase (w : World) (r : Nat) : Option Phase := (w.procs[r]?).map phaseOf

/-- A send was entered. -/
def Ev.sendPosted : Ev → Bool
  | .posted (.send _ _ _ _) => true
  | _ => false

/-- A send returned. -/
def Ev.sendReturned : Ev → Bool
  | .returned (.send _ _ _ _) => true
  | _ => false

/-- A receive was entered. -/
def Ev.recvPosted : Ev → Bool
  | .posted (.recv _ _ _ _) => true
  | _ => false

/-- A receive returned. -/
def Ev.recvReturned : Ev → Bool
  | .returned (.recv _ _ _ _) => true
  | _ => false

/-- An environment for concrete runs: a transport that buffers nothing, a
4-byte `int`, a 64-bit `size_t`, fresh memory reading as zero. -/
def cfg0 : Config := { threshold := 0, sizeofInt := 4, sizeBits := 64, uninit := fun _ _ _ => 0 }

/-- An environment whose transport buffers every message of `main`. -/
def cfgEager : Config :=
  { threshold := 1048576, sizeofInt := 4, sizeBits := 64, uninit := fun _ _ _ => 0 }

/-- Each kind of communication call was made once by the process and has
returned. -/
def Proc.commOnce (p : Proc) : Prop :=
  p.inCall = false ∧
    p.trace.countP Ev.sendPosted = 1 ∧ p.trace.countP Ev.sendReturned = 1 ∧
    p.trace.countP Ev.recvPosted = 1 ∧ p.trace.countP Ev.recvReturned = 1

/-- The per-endpoint facts of the state machine: a process is `Done` only when
its send and its receive have returned, it has exited only in `Done` and after
one shutdown, and the shutdown happens at most once and only in `Done`. -/
def Proc.orderly (p : Proc) : Prop :=
  p.hist.getLast? = some (phaseOf p) ∧
    (phaseOf p = .Done →
      p.trace.countP Ev.sendReturned = 1 ∧ p.trace.countP Ev.recvReturned = 1) ∧
    (p.status.isSome → phaseOf p = .Done ∧ p.trace.count (.did .finalize) = 1) ∧
    p.trace.count (.did .finalize) ≤ 1 ∧
    (Ev.did .finalize ∈ p.trace → phaseOf p = .Done)

/-! ## The states of a run with a wrong group size -/

/-- The offset of a rank in the list of calls of the early exit: rank 0 starts
at the `printf`, the others after it. -/
def skip (me : Nat) : Nat := if me = 0 then 0 else 1

/-- The process of rank `me` in a group whose size is not 2, after `k`
transitions (`n` is the element count of the calls it never reaches). -/
def Q (n me k : Nat) : Proc :=
  { me := me
    prog := if 3 ≤ k + skip me then []
            else [Action.printWrongSize, .finalize, .exit 0].drop (k + skip me)
              ++ (prologue n ++ (if me = 0 then initiatorBranch n else responderBranch n)
                ++ epilogue)
    inCall := false
    X := none
    Y := none
    out := if me = 0 ∧ 1 ≤ k then [.wrongSize] else []
    status := if 3 ≤ k + skip me then some 0 else none
    failed := false
    trace := ([Ev.did .printWrongSize, .did .finalize, .did (.exit 0)].take (k + skip me)).drop
      (skip me)
    hist := if 3 ≤ k + skip me then [.Idle, .Done] else [.Idle] }

/-- The states a group of `np` processes, `np` other than 2, passes through. -/
def InvWrong (n np : Nat) (w : World) : Prop :=
  w.chan = [] ∧ w.log = [] ∧ w.procs.length = np ∧
    ∀ me, me < np → ∃ k, k + skip me ≤ 3 ∧ w.procs[me]? = some (Q n me k)

/-- The calls still ahead of the processes of the group, counted. -/
def World.todo (w : World) : Nat := (w.procs.map (fun p => p.prog.length)).sum

/-! ## The states of a run in which both processes send first -/

/-- The calls of a process that, after the allocations and the initialisation
loop, prints the two lines of the initiator and sends `X` to `dest`, then goes
on with `rest`. -/
def sendFirst (n dest : Nat) (rest : List Action) : List Action :=
  prologue n ++ [.printMsgSize n, .printSending, .send .X n dest tag] ++ rest

/-- The process of rank `me` running `sendFirst n dest rest`, after `k`
transitions: 6 is inside the send. -/
def S (cfg : Config) (n me dest : Nat) (rest : List Action) (k : Nat) : Proc :=
  { me := me
    prog := (sendFirst n dest rest).drop (if k ≤ 5 then k else 5)
    inCall := decide (k = 6)
    X := if k = 0 then none
         else if k ≤ 2 then some ((List.range n).map (cfg.uninit me .X))
         else some (List.replicate n 12345)
    Y := if k ≤ 1 then none
         else if k = 2 then some ((List.range n).map (cfg.uninit me .Y))
         else some (List.replicate n (me : Int))
    out := [Out.msgSize (msgBytes n cfg.sizeofInt cfg.sizeBits), .sending me].take
      (if k ≤ 3 then 0 else if k = 4 then 1 else 2)
    status := none
    failed := false
    trace := ([Ev.did (.malloc .X n), .did (.malloc .Y n), .did (.initXY n),
        .did (.printMsgSize n), .did .printSending, .posted (.send .X n dest tag)]).take k
    hist := [Phase.Idle, .Sending].take (if k ≤ 5 then 1 else 2) }

/-- The group of two such processes when rank 0 has taken `a` transitions and
rank 1 has taken `b`. -/
def V (cfg : Config) (n d0 : Nat) (r0 : List Action) (d1 : Nat) (r1 : List Action)
    (a b : Nat) : World :=
  { procs := [S cfg n 0 d0 r0 a, S cfg n 1 d1 r1 b], chan := [], log := [] }

/-! ## Properties stated of whole runs -/

/-- The early exit of rank `me` in a group of `np`: in every reachable state
the transport holds and has delivered nothing, the process has no buffer, has
made none but the three calls of the early exit (no allocation, no send, no
receive), has printed at most the one message of rank 0, and is never
blocked; once it has exited, its status is 0, it has printed exactly that
message (rank 0) or nothing (other ranks), and it has called the shutdown once,
right before `exit`; and every run can be continued until every process of
the group has exited. -/
def WrongSizeExit (cfg : Config) (np me : Nat) : Prop :=
  (∀ w, Reach cfg (initWorld mainProg np) w →
    w.chan = [] ∧ w.log = [] ∧
    ∃ p, w.procs[me]? = some p ∧ p.X = none ∧ p.Y = none ∧ p.failed = false ∧
      p.inCall = false ∧
      (∀ e ∈ p.trace, e = .did .printWrongSize ∨ e = .did .finalize ∨ e = .did (.exit 0)) ∧
      p.out <+: (if me = 0 then [Out.wrongSize] else []) ∧
      (p.status = none → ∃ w1, stepRank cfg me w = some w1) ∧
      (p.status.isSome →
        p.status = some 0 ∧
        p.out = (if me = 0 then [Out.wrongSize] else []) ∧
        p.trace = (if me = 0 then [Ev.did .printWrongSize] else [])
            ++ [.did .finalize, .did (.exit 0)])) ∧
  (∀ w, Reach cfg (initWorld mainProg np) w →
    ∃ w1, Reach cfg w w1 ∧ ∀ r, r < np → w1.exited r = true) ∧
  Out.wrongSize.render = "You have to use exactly 2 processes to run this program\n"

/-- The deadlock of a two-process run of `prog`: in every reachable state the
transport holds and has delivered nothing, no process has returned from a send
or exited, and each is `Idle` or `Sending`; a state without transition has both
processes inside their send, each having printed its message size and its
`sending` line; and such a state is reachable from every reachable state. -/
def SymmetricDeadlock (cfg : Config) (prog : Nat → Nat → List Action) : Prop :=
  ∀ w, Reach cfg (initWorld prog 2) w →
    w.chan = [] ∧ w.log = [] ∧
    (∃ p0 p1, w.procs = [p0, p1] ∧ ∀ p, p = p0 ∨ p = p1 →
      p.trace.countP Ev.sendReturned = 0 ∧ p.status = none ∧
      (phaseOf p = .Idle ∨ phaseOf p = .Sending)) ∧
    ((∀ r, stepRank cfg r w = none) →
      w.phase 0 = some .Sending ∧ w.phase 1 = some .Sending ∧
      ∃ p0 p1, w.procs = [p0, p1] ∧
        p0.out = [.msgSize (msgBytes msgsize cfg.sizeofInt cfg.sizeBits), .sending 0] ∧
        p1.out = [.msgSize (msgBytes msgsize cfg.sizeofInt cfg.sizeBits), .sending 1]) ∧
    ∃ w1, Reach cfg w w1 ∧ w1.phase 0 = some .Sending ∧ w1.phase 1 = some .Sending ∧
      ∀ r, stepRank cfg r w1 = none

/-- Exactly-once delivery in a state of the two-process run: two transfers
were completed, rank 0 to rank 1 and then rank 1 to rank 0, each of `msgsize`
elements with tag `tag` and each into a receive posted for the sender's rank,
that tag and that capacity; the transport holds no message; each process made
one send and one receive, those of its branch, and both have returned. -/
def World.exactlyOnce (w : World) : Prop :=
  w.log = [⟨0, 1, tag, msgsize, 0, tag, msgsize⟩, ⟨1, 0, tag, msgsize, 1, tag, msgsize⟩] ∧
  w.chan = [] ∧
  ∃ p0 p1, w.procs = [p0, p1] ∧ p0.commOnce ∧ p1.commOnce ∧
    Ev.posted (.send .X msgsize 1 tag) ∈ p0.trace ∧
    Ev.posted (.recv .Y msgsize 1 tag) ∈ p0.trace ∧
    Ev.posted (.recv .Y msgsize 0 tag) ∈ p1.trace ∧
    Ev.posted (.send .Y msgsize 0 tag) ∈ p1.trace

/-- The per-endpoint state machine in a state of the two-process run: the
phases each rank has passed through are an initial part of its sequence, and
the whole sequence once it is `Done`; the calls each rank has made are an
initial part of the calls of its branch; each process is orderly; and the run
can be continued until both have exited. -/
def World.machineOK (cfg : Config) (w : World) : Prop :=
  ∃ p0 p1, w.procs = [p0, p1] ∧
    p0.hist <+: [.Idle, .Sending, .Idle, .Receiving, .Done] ∧
    p1.hist <+: [.Idle, .Receiving, .Idle, .Sending, .Done] ∧
    (phaseOf p0 = .Done → p0.hist = [.Idle, .Sending, .Idle, .Receiving, .Done]) ∧
    (phaseOf p1 = .Done → p1.hist = [.Idle, .Receiving, .Idle, .Sending, .Done]) ∧
    p0.trace <+: trace0 msgsize ∧ p1.trace <+: trace1 msgsize ∧
    p0.orderly ∧ p1.orderly ∧
    ∃ w1, Reach cfg w w1 ∧ w1.exited 0 = true ∧ w1.exited 1 = true

/-- Safety of the dispatch for rank `me` of a group of `np`: the rank is 0 or
1, and a rank other than 0 is 1 and runs the `else` branch; every send and
receive of `main` names a rank of the group other than `me`, with `msgsize`
elements and tag `tag`; and in no reachable state has a receive failed, every
completed transfer having as many elements as the capacity of its receive. -/
def DispatchSafe (np me : Nat) : Prop :=
  (me = 0 ∨ me = 1) ∧
  (me ≠ 0 → me = 1 ∧ mainProg np me = prologue msgsize ++ responderBranch msgsize ++ epilogue) ∧
  (∀ b c d t, Action.send b c d t ∈ mainProg np me →
    d < np ∧ d ≠ me ∧ c = msgsize ∧ t = tag) ∧
  (∀ b c s t, Action.recv b c s t ∈ mainProg np me →
    s < np ∧ s ≠ me ∧ c = msgsize ∧ t = tag) ∧
  (∀ cfg w, Reach cfg (initWorld mainProg np) w →
    (∀ p ∈ w.procs, p.failed = false) ∧
    ∀ t ∈ w.log, t.count = t.capacity ∧ t.count = msgsize ∧ t.recvSource = t.src ∧
      t.recvTag = t.tg)

theorem msgsize_eq : msgsize = 262144 := by unfold msgsize; decide

theorem msgsize_pos : 0 < msgsize := by rw [msgsize_eq]; decide

theorem initLoop_eq (me : Int) (n : Nat) (X Y : List Int) (hx : n ≤ X.length)
    (hy : n ≤ Y.length) :
    initLoop me n X Y
      = (List.replicate n 12345 ++ X.drop n, List.replicate n me ++ Y.drop n) := by
  have set_step : ∀ (a : Int) (k : Nat) (L : List Int), k < L.length →
      (List.replicate k a ++ L.drop k).set k a
        = List.replicate (k + 1) a ++ L.drop (k + 1) := by
    intro a k L hk
    rw [List.set_append]
    simp only [List.length_replicate, lt_self_iff_false, if_false, Nat.sub_self]
    rw [List.drop_eq_getElem_cons hk, List.set_cons_zero, List.replicate_succ',
      List.append_assoc]
    rfl
  induction n with
  | zero => simp [initLoop]
  | succ k ih =>
    have h := ih (by omega) (by omega)
    unfold initLoop at h ⊢
    rw [List.range_succ, List.foldl_append, h]
    simp only [List.foldl_cons, List.foldl_nil]
    rw [set_step 12345 k X (by omega), set_step me k Y (by omega)]

theorem initLoop_fresh (me : Int) (n : Nat) (f g : Nat → Int) :
    initLoop me n ((List.range n).map f) ((List.range n).map g)
      = (List.replicate n 12345, List.replicate n me) := by
  rw [initLoop_eq me n _ _ (by simp) (by simp)]
  simp

theorem mainBody_two_zero (n : Nat) :
    mainBody n 2 0 = prologue n ++ initiatorBranch n ++ epilogue := by
  rfl

theorem mainBody_two_one (n : Nat) :
    mainBody n 2 1 = prologue n ++ responderBranch n ++ epilogue := by
  rfl

theorem step0_local (cfg : Config) (n i j : Nat) (hn : 0 < n) (hi : i ≤ 12)
    (h6 : i ≠ 6) (h9 : i ≠ 9) :
    stepRank cfg 0 (W cfg n i j) = some (W cfg n (i + 1) j) := by
  interval_cases i <;>
    first
    | exact absurd rfl h6
    | exact absurd rfl h9
    | simp [stepRank, W, L0, mainBody_two_zero, prologue, initiatorBranch, epilogue,
        exec, Proc.record, phaseOf, Proc.setBuf, Action.isComm, trace0, out0, enterCall,
        initLoop_fresh, hn]

set_option maxHeartbeats 1000000 in
theorem step0_send (cfg : Config) (n j : Nat) (hj : j ≤ 4) :
    stepRank cfg 0 (W cfg n 6 j)
      = if n ≤ cfg.threshold then some (W cfg n 7 j)
        else if j = 4 then some (W cfg n 7 5) else none := by
  by_cases hthr : n ≤ cfg.threshold
  · interval_cases j <;>
    simp [stepRank, W, L0, L1, mainBody_two_zero, mainBody_two_one, prologue,
      initiatorBranch, responderBranch, epilogue, Proc.record, phaseOf, Proc.setBuf,
      Proc.buf, Action.isComm, trace0, trace1, out0, completeSend, sendData, returnFrom,
      deliver, takeMsg, Msg.matches, msg01, msg10, hthr]
  · interval_cases j <;>
    simp [stepRank, W, L0, L1, mainBody_two_zero, mainBody_two_one, prologue,
      initiatorBranch, responderBranch, epilogue, Proc.record, phaseOf, Proc.setBuf,
      Proc.buf, Action.isComm, trace0, trace1, out0, completeSend, sendData, returnFrom,
      deliver, takeMsg, Msg.matches, msg01, msg10, hthr]

set_option maxHeartbeats 1000000 in
theorem step0_recv (cfg : Config) (n j : Nat) (hj : j ≤ 9) :
    stepRank cfg 0 (W cfg n 9 j) = if 7 ≤ j then some (W cfg n 10 j) else none := by
  interval_cases j <;>
  simp [stepRank, W, L0, L1, mainBody_two_zero, mainBody_two_one, prologue,
    initiatorBranch, responderBranch, epilogue, Proc.record, phaseOf, Proc.setBuf,
    Proc.buf, Action.isComm, trace0, trace1, out0, completeRecv, sendData, returnFrom,
    deliver, takeMsg, Msg.matches, msg01, msg10]

theorem step1_local (cfg : Config) (n i j : Nat) (hj : j ≤ 8) (h4 : j ≠ 4) (h6 : j ≠ 6) :
    stepRank cfg 1 (W cfg n i j) = some (W cfg n i (j + 1)) := by
  interval_cases j <;>
    first
    | exact absurd rfl h4
    | exact absurd rfl h6
    | simp [stepRank, W, L1, mainBody_two_one, prologue, responderBranch, epilogue,
        exec, Proc.record, phaseOf, Proc.setBuf, Action.isComm, trace1, enterCall,
        initLoop_fresh]

set_option maxHeartbeats 1000000 in
theorem step1_recv (cfg : Config) (n i : Nat) (hi : i ≤ 9) :
    stepRank cfg 1 (W cfg n i 4) = if 7 ≤ i then some (W cfg n i 5) else none := by
  interval_cases i <;>
  simp [stepRank, W, L1, mainBody_two_one, prologue,
    responderBranch, epilogue, Proc.record, phaseOf, Proc.setBuf,
    Proc.buf, Action.isComm, trace1, completeRecv, returnFrom,
    deliver, takeMsg, Msg.matches, msg01, msg10]

set_option maxHeartbeats 1000000 in
theorem step1_send (cfg : Config) (n i : Nat) (hi : i ≤ 9) :
    stepRank cfg 1 (W cfg n i 6)
      = if n ≤ cfg.threshold then some (W cfg n i 7)
        else if i = 9 then some (W cfg n 10 7) else none := by
  by_cases hthr : n ≤ cfg.threshold
  · interval_cases i <;>
    simp [stepRank, W, L0, L1, mainBody_two_zero, mainBody_two_one, prologue,
      initiatorBranch, responderBranch, epilogue, Proc.record, phaseOf, Proc.setBuf,
      Proc.buf, Action.isComm, trace0, trace1, out0, completeSend, sendData, returnFrom,
      deliver, takeMsg, Msg.matches, msg01, msg10, hthr]
  · interval_cases i <;>
    simp [stepRank, W, L0, L1, mainBody_two_zero, mainBody_two_one, prologue,
      initiatorBranch, responderBranch, epilogue, Proc.record, phaseOf, Proc.setBuf,
      Proc.buf, Action.isComm, trace0, trace1, out0, completeSend, sendData, returnFrom,
      deliver, takeMsg, Msg.matches, msg01, msg10, hthr]

theorem stepRank_ge (cfg : Config) (n i j r : Nat) (hr : 2 ≤ r) :
    stepRank cfg r (W cfg n i j) = none := by
  have : (W cfg n i j).procs[r]? = none := by
    simp [W]
    omega
  simp [stepRank, this]

theorem step0_sim (cfg : Config) (n i j : Nat) (hn : 0 < n) (hv : Valid cfg n i j) :
    stepRank cfg 0 (W cfg n i j) = (next0 cfg n i j).map (fun ij => W cfg n ij.1 ij.2) := by
  obtain ⟨hi, hj, h1, h2, h3⟩ := hv
  unfold next0
  by_cases h6 : i = 6
  · subst h6
    rw [step0_send cfg n j (by omega)]
    simp only [if_true]
    split_ifs <;> rfl
  · by_cases h9 : i = 9
    · subst h9
      rw [step0_recv cfg n j hj]
      simp only [if_neg h6, if_true]
      split_ifs <;> rfl
    · by_cases h13 : 13 ≤ i
      · have : i = 13 := by omega
        subst this
        simp [stepRank, W, L0]
      · rw [step0_local cfg n i j hn (by omega) h6 h9]
        simp [h6, h9, h13]

theorem step1_sim (cfg : Config) (n i j : Nat) (hv : Valid cfg n i j) :
    stepRank cfg 1 (W cfg n i j) = (next1 cfg n i j).map (fun ij => W cfg n ij.1 ij.2) := by
  obtain ⟨hi, hj, h1, h2, h3⟩ := hv
  unfold next1
  by_cases h4 : j = 4
  · subst h4
    rw [step1_recv cfg n i (by omega)]
    simp only [if_true]
    split_ifs <;> rfl
  · by_cases h6 : j = 6
    · subst h6
      rw [step1_send cfg n i (by omega)]
      simp only [if_neg h4, if_true]
      split_ifs <;> rfl
    · by_cases h9 : 9 ≤ j
      · have : j = 9 := by omega
        subst this
        simp [stepRank, W, L1]
      · rw [step1_local cfg n i j (by omega) h4 h6]
        simp [h4, h6, h9]

theorem initWorld_eq (cfg : Config) (n : Nat) : initWorld (mainBody n) 2 = W cfg n 0 0 := by
  simp [initWorld, initProc, W, L0, L1, mainBody_two_zero, mainBody_two_one, prologue,
    initiatorBranch, responderBranch, epilogue, Proc.record, phaseOf, Action.isComm,
    trace0, trace1, out0, List.range_succ]

theorem next0_valid (cfg : Config) (n i j a b : Nat) (hv : Valid cfg n i j)
    (h : next0 cfg n i j = some (a, b)) : Valid cfg n a b ∧ a + b = i + j + 1 ∨
      Valid cfg n a b ∧ a + b = i + j + 2 := by
  obtain ⟨hi, hj, h1, h2, h3⟩ := hv
  unfold next0 at h
  unfold Valid
  split_ifs at h <;> simp only [Option.some.injEq, Prod.mk.injEq] at h <;>
    obtain ⟨rfl, rfl⟩ := h <;> omega

theorem next1_valid (cfg : Config) (n i j a b : Nat) (hv : Valid cfg n i j)
    (h : next1 cfg n i j = some (a, b)) : Valid cfg n a b ∧ a + b = i + j + 1 ∨
      Valid cfg n a b ∧ a + b = i + j + 2 := by
  obtain ⟨hi, hj, h1, h2, h3⟩ := hv
  unfold next1 at h
  unfold Valid
  split_ifs at h <;> simp only [Option.some.injEq, Prod.mk.injEq] at h <;>
    obtain ⟨rfl, rfl⟩ := h <;> omega

theorem next_progress (cfg : Config) (n i j : Nat) (hv : Valid cfg n i j)
    (h : ¬(i = 13 ∧ j = 9)) :
    (next0 cfg n i j).isSome ∨ (next1 cfg n i j).isSome := by
  obtain ⟨hi, hj, h1, h2, h3⟩ := hv
  unfold next0 next1
  by_cases hthr : n ≤ cfg.threshold
  · simp only [hthr, if_true]
    split_ifs <;> simp <;> omega
  · have h3' := h3 (by omega)
    simp only [hthr, if_false]
    split_ifs <;> simp <;> omega

theorem valid_zero (cfg : Config) (n : Nat) : Valid cfg n 0 0 := by
  unfold Valid
  omega

theorem step_sim (cfg : Config) (n i j : Nat) (hn : 0 < n) (hv : Valid cfg n i j)
    (w : World) (h : Step cfg (W cfg n i j) w) :
    ∃ a b, Valid cfg n a b ∧ w = W cfg n a b ∧ i + j < a + b := by
  obtain ⟨r, hr⟩ := h
  rcases Nat.lt_or_ge r 2 with hlt | hge
  · interval_cases r
    · rw [step0_sim cfg n i j hn hv] at hr
      cases hnx : next0 cfg n i j with
      | none => simp [hnx] at hr
      | some ab =>
        obtain ⟨a, b⟩ := ab
        simp only [hnx, Option.map_some', Option.some.injEq] at hr
        refine ⟨a, b, ?_, hr.symm, ?_⟩ <;>
          rcases next0_valid cfg n i j a b hv hnx with h | h
        · exact h.1
        · exact h.1
        · omega
        · omega
    · rw [step1_sim cfg n i j hv] at hr
      cases hnx : next1 cfg n i j with
      | none => simp [hnx] at hr
      | some ab =>
        obtain ⟨a, b⟩ := ab
        simp only [hnx, Option.map_some', Option.some.injEq] at hr
        refine ⟨a, b, ?_, hr.symm, ?_⟩ <;>
          rcases next1_valid cfg n i j a b hv hnx with h | h
        · exact h.1
        · exact h.1
        · omega
        · omega
  · rw [stepRank_ge cfg n i j r hge] at hr
    exact absurd hr (by simp)

/-- Every state the two-process run reaches is one of the listed states. -/
theorem reach_inv (cfg : Config) (n : Nat) (hn : 0 < n) (w : World)
    (h : Reach cfg (initWorld (mainBody n) 2) w) :
    ∃ i j, Valid cfg n i j ∧ w = W cfg n i j := by
  induction h with
  | refl => exact ⟨0, 0, valid_zero cfg n, initWorld_eq cfg n⟩
  | tail _ hstep ih =>
    obtain ⟨i, j, hv, rfl⟩ := ih
    obtain ⟨a, b, hv', hw, _⟩ := step_sim cfg n i j hn hv _ hstep
    exact ⟨a, b, hv', hw⟩

/-- A listed state other than the final one has a transition. -/
theorem valid_enabled (cfg : Config) (n i j : Nat) (hn : 0 < n) (hv : Valid cfg n i j)
    (h : ¬(i = 13 ∧ j = 9)) :
    ∃ r a b, Valid cfg n a b ∧ i + j < a + b ∧
      stepRank cfg r (W cfg n i j) = some (W cfg n a b) := by
  rcases next_progress cfg n i j hv h with h0 | h1
  · obtain ⟨⟨a, b⟩, hab⟩ := Option.isSome_iff_exists.mp h0
    refine ⟨0, a, b, ?_, ?_, ?_⟩
    · rcases next0_valid cfg n i j a b hv hab with h | h <;> exact h.1
    · rcases next0_valid cfg n i j a b hv hab with h | h <;> omega
    · rw [step0_sim cfg n i j hn hv, hab]
      rfl
  · obtain ⟨⟨a, b⟩, hab⟩ := Option.isSome_iff_exists.mp h1
    refine ⟨1, a, b, ?_, ?_, ?_⟩
    · rcases next1_valid cfg n i j a b hv hab with h | h <;> exact h.1
    · rcases next1_valid cfg n i j a b hv hab with h | h <;> omega
    · rw [step1_sim cfg n i j hv, hab]
      rfl

/-- From every listed state the run can be continued to the final state. -/
theorem reach_final (cfg : Config) (n : Nat) (hn : 0 < n) :
    ∀ (k i j : Nat), Valid cfg n i j → 22 - (i + j) ≤ k →
      Reach cfg (W cfg n i j) (W cfg n 13 9) := by
  intro k
  induction k with
  | zero =>
    intro i j hv hk
    have hi : i = 13 := by unfold Valid at hv; omega
    have hj : j = 9 := by unfold Valid at hv; omega
    subst hi
    subst hj
    exact Relation.ReflTransGen.refl
  | succ k ih =>
    intro i j hv hk
    by_cases hfin : i = 13 ∧ j = 9
    · obtain ⟨rfl, rfl⟩ := hfin
      exact Relation.ReflTransGen.refl
    · obtain ⟨r, a, b, hv', hlt, hs⟩ := valid_enabled cfg n i j hn hv hfin
      exact Relation.ReflTransGen.head ⟨r, hs⟩ (ih a b hv' (by omega))

/-- The final state has no transition. -/
theorem final_terminal (cfg : Config) (n r : Nat) :
    stepRank cfg r (W cfg n 13 9) = none := by
  rcases Nat.lt_or_ge r 2 with hlt | hge
  · interval_cases r <;> simp [stepRank, W, L0, L1]
  · exact stepRank_ge cfg n 13 9 r hge

/-! ## Facts about the listed states -/

theorem L0_phase (cfg : Config) (n i : Nat) (hi : i ≤ 13) :
    phaseOf (L0 cfg n i)
      = if i ≤ 5 then .Idle else if i = 6 then .Sending else if i ≤ 8 then .Idle
        else if i = 9 then .Receiving else .Done := by
  interval_cases i <;>
    simp [L0, phaseOf, mainBody_two_zero, prologue, initiatorBranch, epilogue, Action.isComm]

theorem L1_phase (cfg : Config) (n j : Nat) (hj : j ≤ 9) :
    phaseOf (L1 cfg n j)
      = if j ≤ 3 then .Idle else if j = 4 then .Receiving else if j = 5 then .Idle
        else if j = 6 then .Sending else .Done := by
  interval_cases j <;>
    simp [L1, phaseOf, mainBody_two_one, prologue, responderBranch, epilogue, Action.isComm]

theorem W_phase0 (cfg : Config) (n i j : Nat) (hi : i ≤ 13)
    (h : (W cfg n i j).phase 0 = some .Done) : 10 ≤ i := by
  simp only [World.phase, W, List.getElem?_cons_zero, Option.map_some', Option.some.injEq] at h
  rw [L0_phase cfg n i hi] at h
  split_ifs at h
  omega

theorem W_phase1 (cfg : Config) (n i j : Nat) (hj : j ≤ 9)
    (h : (W cfg n i j).phase 1 = some .Done) : 7 ≤ j := by
  simp only [World.phase, W, List.getElem?_cons_succ, List.getElem?_cons_zero,
    Option.map_some', Option.some.injEq] at h
  rw [L1_phase cfg n j hj] at h
  split_ifs at h
  omega

theorem W_final_phase (cfg : Config) (n : Nat) :
    (W cfg n 13 9).phase 0 = some .Done ∧ (W cfg n 13 9).phase 1 = some .Done := by
  constructor
  · simp only [World.phase, W, List.getElem?_cons_zero, Option.map_some']
    rw [L0_phase cfg n 13 (le_refl _)]
    rfl
  · simp only [World.phase, W, List.getElem?_cons_succ, List.getElem?_cons_zero,
      Option.map_some']
    rw [L1_phase cfg n 9 (le_refl _)]
    rfl

theorem reach_final_init (cfg : Config) (n : Nat) (hn : 0 < n) :
    Reach cfg (initWorld (mainBody n) 2) (W cfg n 13 9) := by
  rw [initWorld_eq cfg n]
  exact reach_final cfg n hn 22 0 0 (valid_zero cfg n) (by omega)

theorem echo_gen (cfg : Config) (n : Nat) (hn : 0 < n) (w : World)
    (hr : Reach cfg (initWorld (mainBody n) 2) w) (h0 : w.phase 0 = some .Done) :
    ∀ i, i < n → w.cell 0 .Y i = some 12345 := by
  obtain ⟨i, j, hv, rfl⟩ := reach_inv cfg n hn w hr
  have hi := W_phase0 cfg n i j hv.1 h0
  have hi13 := hv.1
  intro k hk
  interval_cases i <;> simp [World.cell, W, L0, Proc.buf, hk]

theorem W_final_exited (cfg : Config) (n : Nat) :
    (W cfg n 13 9).exited 0 = true ∧ (W cfg n 13 9).exited 1 = true := by
  constructor <;> simp [World.exited, W, L0, L1]

theorem W_exited0 (cfg : Config) (n i j : Nat) (hi : i ≤ 13)
    (h : (W cfg n i j).exited 0 = true) : i = 13 := by
  by_contra hne
  have : i ≤ 12 := by omega
  simp [World.exited, W, L0] at h
  omega

theorem W_exited1 (cfg : Config) (n i j : Nat) (hj : j ≤ 9)
    (h : (W cfg n i j).exited 1 = true) : j = 9 := by
  by_contra hne
  have : j ≤ 8 := by omega
  simp [World.exited, W, L1] at h
  omega

theorem run_bound (cfg : Config) (n : Nat) (hn : 0 < n) (sched : List Nat) :
    ∀ (i j : Nat) (w : World), Valid cfg n i j → run cfg sched (W cfg n i j) = some w →
      ∃ a b, Valid cfg n a b ∧ w = W cfg n a b ∧ i + j + sched.length ≤ a + b := by
  induction sched with
  | nil =>
    intro i j w hv h
    simp only [run, Option.some.injEq] at h
    exact ⟨i, j, hv, h.symm, by simp⟩
  | cons r rs ih =>
    intro i j w hv h
    simp only [run] at h
    cases hs : stepRank cfg r (W cfg n i j) with
    | none => simp [hs] at h
    | some w1 =>
      rw [hs] at h
      simp only [Option.some_bind] at h
      obtain ⟨a, b, hv1, rfl, hlt⟩ := step_sim cfg n i j hn hv w1 ⟨r, hs⟩
      obtain ⟨c, d, hv2, hw, hle⟩ := ih a b w hv1 h
      refine ⟨c, d, hv2, hw, ?_⟩
      simp only [List.length_cons]
      omega

theorem safe_gen (cfg : Config) (n : Nat) (hn : 0 < n) :
    (∀ w, Reach cfg (initWorld (mainBody n) 2) w →
        ¬(w.phase 0 = some .Done ∧ w.phase 1 = some .Done) →
        ∃ r w1, stepRank cfg r w = some w1) ∧
    (∀ w, Reach cfg (initWorld (mainBody n) 2) w →
        ¬(w.exited 0 = true ∧ w.exited 1 = true) → ∃ r w1, stepRank cfg r w = some w1) ∧
    (∀ w, Reach cfg (initWorld (mainBody n) 2) w →
        ∃ w1, Reach cfg w w1 ∧ w1.phase 0 = some .Done ∧ w1.phase 1 = some .Done ∧
          w1.exited 0 = true ∧ w1.exited 1 = true ∧ ∀ r, stepRank cfg r w1 = none) ∧
    (∀ sched w, run cfg sched (initWorld (mainBody n) 2) = some w → sched.length ≤ 22) := by
  have key : ∀ w, Reach cfg (initWorld (mainBody n) 2) w →
      ¬(w.exited 0 = true ∧ w.exited 1 = true) → ∃ r w1, stepRank cfg r w = some w1 := by
    intro w hr hne
    obtain ⟨i, j, hv, rfl⟩ := reach_inv cfg n hn w hr
    have hfin : ¬(i = 13 ∧ j = 9) := by
      rintro ⟨rfl, rfl⟩
      exact hne (W_final_exited cfg n)
    obtain ⟨r, a, b, _, _, hs⟩ := valid_enabled cfg n i j hn hv hfin
    exact ⟨r, _, hs⟩
  refine ⟨?_, key, ?_, ?_⟩
  · intro w hr hne
    apply key w hr
    rintro ⟨h0, h1⟩
    obtain ⟨i, j, hv, rfl⟩ := reach_inv cfg n hn w hr
    have hi := W_exited0 cfg n i j hv.1 h0
    have hj := W_exited1 cfg n i j hv.2.1 h1
    subst hi
    subst hj
    exact hne (W_final_phase cfg n)
  · intro w hr
    obtain ⟨i, j, hv, rfl⟩ := reach_inv cfg n hn w hr
    exact ⟨W cfg n 13 9, reach_final cfg n hn 22 i j hv (by omega),
      (W_final_phase cfg n).1, (W_final_phase cfg n).2,
      (W_final_exited cfg n).1, (W_final_exited cfg n).2, final_terminal cfg n⟩
  · intro sched w h
    rw [initWorld_eq cfg n] at h
    obtain ⟨a, b, hv, _, hle⟩ := run_bound cfg n hn sched 0 0 w (valid_zero cfg n) h
    unfold Valid at hv
    omega

theorem echo2_gen (cfg : Config) (n : Nat) (hn : 0 < n) (w : World)
    (hr : Reach cfg (initWorld (mainBody n) 2) w)
    (h0 : w.phase 0 = some .Done) (h1 : w.phase 1 = some .Done) :
    ∃ p0 p1 x, w.procs = [p0, p1] ∧ x.length = n ∧
      p0.X = some x ∧ p0.Y = some x ∧ p1.Y = some x ∧
      w.log = [⟨0, 1, tag, n, 0, tag, n⟩, ⟨1, 0, tag, n, 1, tag, n⟩] := by
  obtain ⟨i, j, hv, rfl⟩ := reach_inv cfg n hn w hr
  have hi := W_phase0 cfg n i j hv.1 h0
  have hj := W_phase1 cfg n i j hv.2.1 h1
  have hi13 := hv.1
  have hj9 := hv.2.1
  refine ⟨L0 cfg n i, L1 cfg n j, List.replicate n 12345, rfl, by simp, ?_, ?_, ?_, ?_⟩
  · interval_cases i <;> simp [L0]
  · interval_cases i <;> simp [L0]
  · interval_cases j <;> simp [L1]
  · have h5 : 5 ≤ j := by omega
    simp [W, h5, hi]

theorem once_gen (cfg : Config) (n : Nat) (hn : 0 < n) (w : World)
    (hr : Reach cfg (initWorld (mainBody n) 2) w)
    (h0 : w.phase 0 = some .Done) (h1 : w.phase 1 = some .Done) :
    w.log = [⟨0, 1, tag, n, 0, tag, n⟩, ⟨1, 0, tag, n, 1, tag, n⟩] ∧ w.chan = [] ∧
      ∃ p0 p1, w.procs = [p0, p1] ∧ p0.commOnce ∧ p1.commOnce ∧
        Ev.posted (.send .X n 1 tag) ∈ p0.trace ∧ Ev.posted (.recv .Y n 1 tag) ∈ p0.trace ∧
        Ev.posted (.recv .Y n 0 tag) ∈ p1.trace ∧ Ev.posted (.send .Y n 0 tag) ∈ p1.trace := by
  obtain ⟨i, j, hv, rfl⟩ := reach_inv cfg n hn w hr
  have hi := W_phase0 cfg n i j hv.1 h0
  have hj := W_phase1 cfg n i j hv.2.1 h1
  have hi13 := hv.1
  have hj9 := hv.2.1
  have h5 : 5 ≤ j := by omega
  have h10 : ¬ i < 10 := by omega
  have h5' : ¬ j < 5 := by omega
  refine ⟨by simp [W, h5, hi], by simp [W, h10, h5'], L0 cfg n i, L1 cfg n j, rfl, ?_, ?_,
    ?_, ?_, ?_, ?_⟩
  · interval_cases i <;>
      simp [Proc.commOnce, L0, trace0, Ev.sendPosted, Ev.sendReturned, Ev.recvPosted,
        Ev.recvReturned]
  · interval_cases j <;>
      simp [Proc.commOnce, L1, trace1, Ev.sendPosted, Ev.sendReturned, Ev.recvPosted,
        Ev.recvReturned]
  · interval_cases i <;> simp [L0, trace0]
  · interval_cases i <;> simp [L0, trace0]
  · interval_cases j <;> simp [L1, trace1]
  · interval_cases j <;> simp [L1, trace1]

theorem L0_orderly (cfg : Config) (n i : Nat) (hi : i ≤ 13) : (L0 cfg n i).orderly := by
  interval_cases i <;>
    simp [Proc.orderly, L0, phaseOf, mainBody_two_zero, prologue, initiatorBranch, epilogue,
      Action.isComm, trace0, Ev.sendReturned, Ev.recvReturned]

theorem L1_orderly (cfg : Config) (n j : Nat) (hj : j ≤ 9) : (L1 cfg n j).orderly := by
  interval_cases j <;>
    simp [Proc.orderly, L1, phaseOf, mainBody_two_one, prologue, responderBranch, epilogue,
      Action.isComm, trace1, Ev.sendReturned, Ev.recvReturned]

theorem L0_hist_done (cfg : Config) (n i : Nat) (hi : i ≤ 13)
    (h : phaseOf (L0 cfg n i) = .Done) :
    (L0 cfg n i).hist = [.Idle, .Sending, .Idle, .Receiving, .Done] := by
  rw [L0_phase cfg n i hi] at h
  split_ifs at h
  have h10 : 10 ≤ i := by omega
  interval_cases i <;> simp [L0]

theorem L1_hist_done (cfg : Config) (n j : Nat) (hj : j ≤ 9)
    (h : phaseOf (L1 cfg n j) = .Done) :
    (L1 cfg n j).hist = [.Idle, .Receiving, .Idle, .Sending, .Done] := by
  rw [L1_phase cfg n j hj] at h
  split_ifs at h
  have h7 : 7 ≤ j := by omega
  interval_cases j <;> simp [L1]

theorem machine_gen (cfg : Config) (n : Nat) (hn : 0 < n) (w : World)
    (hr : Reach cfg (initWorld (mainBody n) 2) w) :
    ∃ p0 p1, w.procs = [p0, p1] ∧
      p0.hist <+: [.Idle, .Sending, .Idle, .Receiving, .Done] ∧
      p1.hist <+: [.Idle, .Receiving, .Idle, .Sending, .Done] ∧
      (phaseOf p0 = .Done → p0.hist = [.Idle, .Sending, .Idle, .Receiving, .Done]) ∧
      (phaseOf p1 = .Done → p1.hist = [.Idle, .Receiving, .Idle, .Sending, .Done]) ∧
      p0.trace <+: trace0 n ∧ p1.trace <+: trace1 n ∧
      p0.orderly ∧ p1.orderly ∧
      ∃ w1, Reach cfg w w1 ∧ w1.exited 0 = true ∧ w1.exited 1 = true := by
  obtain ⟨i, j, hv, rfl⟩ := reach_inv cfg n hn w hr
  refine ⟨L0 cfg n i, L1 cfg n j, rfl, List.take_prefix _ _, List.take_prefix _ _,
    L0_hist_done cfg n i hv.1, L1_hist_done cfg n j hv.2.1,
    List.take_prefix _ _, List.take_prefix _ _,
    L0_orderly cfg n i hv.1, L1_orderly cfg n j hv.2.1,
    W cfg n 13 9, reach_final cfg n hn 22 i j hv (by omega),
    (W_final_exited cfg n).1, (W_final_exited cfg n).2⟩

theorem record_X (p : Proc) : p.record.X = p.X := by
  unfold Proc.record
  split <;> rfl

theorem record_Y (p : Proc) : p.record.Y = p.Y := by
  unfold Proc.record
  split <;> rfl

/-- A transition of a process whose current call is a send leaves its buffers
as they are. -/
theorem send_frame (cfg : Config) (w w1 : World) (r : Nat) (p : Proc) (b : BufId)
    (count dest tg : Nat) (rest : List Action) (hp : w.procs[r]? = some p)
    (hprog : p.prog = .send b count dest tg :: rest) (hs : stepRank cfg r w = some w1) :
    ∃ p1, w1.procs[r]? = some p1 ∧ p1.X = p.X ∧ p1.Y = p.Y := by
  have hlen : r < w.procs.length := by
    by_contra hge
    rw [List.getElem?_eq_none (by omega)] at hp
    exact absurd hp (by simp)
  unfold stepRank at hs
  rw [hp] at hs
  simp only [hprog] at hs
  split_ifs at hs with hdead hin
  · -- completing the send
    unfold completeSend at hs
    cases hd : sendData p b count with
    | none => simp [hd] at hs
    | some data =>
      simp only [hd] at hs
      split_ifs at hs with hthr
      · simp only [Option.some.injEq] at hs
        subst hs
        refine ⟨returnFrom p (.send b count dest tg) rest, ?_, ?_, ?_⟩
        · simp [List.getElem?_set_self, hlen]
        · simp [returnFrom, record_X]
        · simp [returnFrom, record_Y]
      · cases hq : w.procs[dest]? with
        | none => simp [hq] at hs
        | some q =>
          simp only [hq] at hs
          have hne : dest ≠ r := by
            rintro rfl
            rw [hp] at hq
            simp only [Option.some.injEq] at hq
            subst hq
            simp [hprog] at hs
          split_ifs at hs with hq2
          split at hs
          · split_ifs at hs with hm
            split at hs
            · simp at hs
            · simp only [Option.some.injEq] at hs
              subst hs
              refine ⟨returnFrom p (.send b count dest tg) rest, ?_, ?_, ?_⟩
              · simp only
                rw [List.getElem?_set_ne hne]
                simp [List.getElem?_set_self, hlen]
              · simp [returnFrom, record_X]
              · simp [returnFrom, record_Y]
          · simp at hs
  · -- entering the send
    simp only [Option.some.injEq] at hs
    subst hs
    refine ⟨enterCall p (.send b count dest tg), ?_, ?_, ?_⟩
    · simp [List.getElem?_set_self, hlen]
    · simp [enterCall, record_X]
    · simp [enterCall, record_Y]

theorem frame_gen (cfg : Config) (n : Nat) (hn : 0 < n) (w : World)
    (hr : Reach cfg (initWorld (mainBody n) 2) w) :
    ∃ p0 p1, w.procs = [p0, p1] ∧
      (Ev.did (.initXY n) ∈ p0.trace → p0.X = some (List.replicate n 12345)) ∧
      (Ev.did (.initXY n) ∈ p1.trace → p1.X = some (List.replicate n 12345)) ∧
      (Ev.returned (.recv .Y n 0 tag) ∈ p1.trace →
        p1.Y = some (List.replicate n 12345)) := by
  obtain ⟨i, j, hv, rfl⟩ := reach_inv cfg n hn w hr
  have hi := hv.1
  have hj := hv.2.1
  refine ⟨L0 cfg n i, L1 cfg n j, rfl, ?_, ?_, ?_⟩
  · interval_cases i <;> simp [L0, trace0]
  · interval_cases j <;> simp [L1, trace1]
  · interval_cases j <;> simp [L1, trace1]

theorem nofail_gen (cfg : Config) (n : Nat) (hn : 0 < n) (w : World)
    (hr : Reach cfg (initWorld (mainBody n) 2) w) :
    (∀ p ∈ w.procs, p.failed = false) ∧
      ∀ t ∈ w.log, t.count = t.capacity ∧ t.count = n ∧ t.recvSource = t.src ∧
        t.recvTag = t.tg := by
  obtain ⟨i, j, hv, rfl⟩ := reach_inv cfg n hn w hr
  constructor
  · intro p hp
    simp only [W, List.mem_cons, List.mem_singleton, List.not_mem_nil, or_false] at hp
    rcases hp with rfl | rfl <;> rfl
  · intro t ht
    simp only [W, List.mem_append] at ht
    rcases ht with ht | ht <;> split_ifs at ht <;> simp at ht <;> subst ht <;> simp

/-! ## Wrong group size -/

theorem mainBody_wrong (n np me : Nat) (hnp : np ≠ 2) :
    mainBody n np me
      = [Action.printWrongSize, .finalize, .exit 0].drop (skip me)
        ++ (prologue n ++ (if me = 0 then initiatorBranch n else responderBranch n)
          ++ epilogue) := by
  have : wrongGroupSize np = true := by simp [wrongGroupSize, hnp]
  unfold mainBody sizeCheck skip
  rw [if_pos this]
  split_ifs <;> simp

theorem initProc_wrong (n np me : Nat) (hnp : np ≠ 2) :
    initProc (mainBody n np me) me = Q n me 0 := by
  rw [mainBody_wrong n np me hnp]
  by_cases h : me = 0
  · subst h
    simp [initProc, Q, skip, Proc.record, phaseOf, Action.isComm, initiatorBranch,
      prologue]
  · simp [initProc, Q, skip, h, Proc.record, phaseOf, Action.isComm, responderBranch,
      prologue]

theorem invWrong_init (n np : Nat) (hnp : np ≠ 2) :
    InvWrong n np (initWorld (mainBody n) np) := by
  refine ⟨rfl, rfl, by simp [initWorld], ?_⟩
  intro me hme
  refine ⟨0, ?_, ?_⟩
  · unfold skip
    split_ifs <;> omega
  · simp [initWorld, hme, initProc_wrong n np me hnp]

theorem Q_step (cfg : Config) (n : Nat) (w : World) (me k : Nat) (hk : k + skip me < 3)
    (hp : w.procs[me]? = some (Q n me k)) :
    stepRank cfg me w = some { w with procs := w.procs.set me (Q n me (k + 1)) } := by
  unfold stepRank
  rw [hp]
  by_cases h : me = 0
  · subst h
    have : k ≤ 2 := by simp [skip] at hk; omega
    interval_cases k <;>
      simp [Q, skip, exec, Proc.record, phaseOf, Action.isComm, prologue, initiatorBranch]
  · have : k ≤ 1 := by simp [skip, h] at hk; omega
    interval_cases k <;>
      simp [Q, skip, h, exec, Proc.record, phaseOf, Action.isComm, prologue, responderBranch]

theorem Q_stuck (cfg : Config) (n : Nat) (w : World) (me k : Nat) (hk : k + skip me = 3)
    (hp : w.procs[me]? = some (Q n me k)) : stepRank cfg me w = none := by
  unfold stepRank
  rw [hp]
  simp [Q, hk]

theorem sum_set_lt (f : Proc → Nat) (p1 : Proc) :
    ∀ (l : List Proc) (r : Nat) (p : Proc), l[r]? = some p → f p1 < f p →
      ((l.set r p1).map f).sum < (l.map f).sum := by
  intro l
  induction l with
  | nil => intro r p h; simp at h
  | cons a t ih =>
    intro r p h hlt
    cases r with
    | zero =>
      simp only [List.getElem?_cons_zero, Option.some.injEq] at h
      subst h
      simp only [List.set_cons_zero, List.map_cons, List.sum_cons]
      omega
    | succ r =>
      simp only [List.getElem?_cons_succ] at h
      have := ih r p h hlt
      simp only [List.set_cons_succ, List.map_cons, List.sum_cons]
      omega

theorem Q_prog_lt (n me k : Nat) (hk : k + skip me < 3) :
    (Q n me (k + 1)).prog.length < (Q n me k).prog.length := by
  have h1 : ¬ 3 ≤ k + skip me := by omega
  simp only [Q, if_neg h1]
  split_ifs <;>
    simp only [List.length_nil, List.length_append, List.length_drop, List.length_cons] <;>
    omega

theorem invWrong_step (cfg : Config) (n np : Nat) (w w1 : World) (hinv : InvWrong n np w)
    (hs : Step cfg w w1) : InvWrong n np w1 ∧ w1.todo < w.todo := by
  obtain ⟨r, hr⟩ := hs
  obtain ⟨hc, hl, hlen, hall⟩ := hinv
  by_cases hrn : r < np
  · obtain ⟨k, hk, hp⟩ := hall r hrn
    by_cases hk3 : k + skip r = 3
    · rw [Q_stuck cfg n w r k hk3 hp] at hr
      exact absurd hr (by simp)
    · rw [Q_step cfg n w r k (by omega) hp] at hr
      simp only [Option.some.injEq] at hr
      subst hr
      refine ⟨⟨hc, hl, by simp [hlen], ?_⟩, ?_⟩
      · intro me hme
        by_cases hmr : me = r
        · subst hmr
          exact ⟨k + 1, by omega, by simp [List.getElem?_set_self, hlen, hme]⟩
        · obtain ⟨k', hk', hp'⟩ := hall me hme
          refine ⟨k', hk', ?_⟩
          simp only
          rw [List.getElem?_set_ne (Ne.symm hmr)]
          exact hp'
      · exact sum_set_lt (fun p => p.prog.length) (Q n r (k + 1)) w.procs r (Q n r k) hp
          (Q_prog_lt n r k (by omega))
  · have : w.procs[r]? = none := List.getElem?_eq_none (by omega)
    simp [stepRank, this] at hr

theorem invWrong_reach (cfg : Config) (n np : Nat) (hnp : np ≠ 2) (w : World)
    (hr : Reach cfg (initWorld (mainBody n) np) w) : InvWrong n np w := by
  induction hr with
  | refl => exact invWrong_init n np hnp
  | tail _ hs ih => exact (invWrong_step cfg n np _ _ ih hs).1

/-- A group of the wrong size runs on until every process has exited. -/
theorem invWrong_finish (cfg : Config) (n np : Nat) :
    ∀ (m : Nat) (w : World), InvWrong n np w → w.todo ≤ m →
      ∃ w1, Reach cfg w w1 ∧ InvWrong n np w1 ∧ ∀ me, me < np → w1.exited me = true := by
  intro m
  induction m with
  | zero =>
    intro w hinv hm
    by_cases hall : ∀ me, me < np → w.exited me = true
    · exact ⟨w, Relation.ReflTransGen.refl, hinv, hall⟩
    · exfalso
      push_neg at hall
      obtain ⟨me, hme, hex⟩ := hall
      obtain ⟨k, hk, hp⟩ := hinv.2.2.2 me hme
      have hk3 : k + skip me < 3 := by
        by_contra hge
        have : 3 ≤ k + skip me := by omega
        simp [World.exited, hp, Q, this] at hex
      have hs := Q_step cfg n w me k hk3 hp
      have := (invWrong_step cfg n np w _ hinv ⟨me, hs⟩).2
      omega
  | succ m ih =>
    intro w hinv hm
    by_cases hall : ∀ me, me < np → w.exited me = true
    · exact ⟨w, Relation.ReflTransGen.refl, hinv, hall⟩
    · push_neg at hall
      obtain ⟨me, hme, hex⟩ := hall
      obtain ⟨k, hk, hp⟩ := hinv.2.2.2 me hme
      have hk3 : k + skip me < 3 := by
        by_contra hge
        have : 3 ≤ k + skip me := by omega
        simp [World.exited, hp, Q, this] at hex
      have hs := Q_step cfg n w me k hk3 hp
      obtain ⟨hinv1, hlt⟩ := invWrong_step cfg n np w _ hinv ⟨me, hs⟩
      obtain ⟨w1, hr1, hinv2, hall1⟩ := ih _ hinv1 (by omega)
      exact ⟨w1, Relation.ReflTransGen.head ⟨me, hs⟩ hr1, hinv2, hall1⟩

theorem Q_facts (n me k : Nat) (hk : k + skip me ≤ 3) :
    (Q n me k).X = none ∧ (Q n me k).Y = none ∧ (Q n me k).failed = false ∧
      (Q n me k).inCall = false ∧
      (∀ e ∈ (Q n me k).trace,
        e = .did .printWrongSize ∨ e = .did .finalize ∨ e = .did (.exit 0)) ∧
      (Q n me k).out <+: (if me = 0 then [Out.wrongSize] else []) ∧
      ((Q n me k).status.isSome →
        (Q n me k).status = some 0 ∧
        (Q n me k).out = (if me = 0 then [Out.wrongSize] else []) ∧
        (Q n me k).trace
          = (if me = 0 then [Ev.did .printWrongSize] else [])
              ++ [.did .finalize, .did (.exit 0)]) := by
  by_cases h : me = 0
  · subst h
    have : k ≤ 3 := by simp [skip] at hk; omega
    interval_cases k <;> simp [Q, skip]
  · have : k ≤ 2 := by simp [skip, h] at hk; omega
    interval_cases k <;> simp [Q, skip, h]

theorem wrong_gen (cfg : Config) (n np me : Nat) (hnp : np ≠ 2) (hme : me < np) :
    (∀ w, Reach cfg (initWorld (mainBody n) np) w →
      w.chan = [] ∧ w.log = [] ∧
      ∃ p, w.procs[me]? = some p ∧ p.X = none ∧ p.Y = none ∧ p.failed = false ∧
        p.inCall = false ∧
        (∀ e ∈ p.trace, e = .did .printWrongSize ∨ e = .did .finalize ∨ e = .did (.exit 0)) ∧
        p.out <+: (if me = 0 then [Out.wrongSize] else []) ∧
        (p.status = none → ∃ w1, stepRank cfg me w = some w1) ∧
        (p.status.isSome →
          p.status = some 0 ∧
          p.out = (if me = 0 then [Out.wrongSize] else []) ∧
          p.trace = (if me = 0 then [Ev.did .printWrongSize] else [])
              ++ [.did .finalize, .did (.exit 0)])) ∧
    (∀ w, Reach cfg (initWorld (mainBody n) np) w →
      ∃ w1, Reach cfg w w1 ∧ ∀ r, r < np → w1.exited r = true) := by
  refine ⟨?_, ?_⟩
  · intro w hr
    obtain ⟨hc, hl, hlen, hall⟩ := invWrong_reach cfg n np hnp w hr
    obtain ⟨k, hk, hp⟩ := hall me hme
    obtain ⟨f1, f2, f3, f4, f5, f6, f7⟩ := Q_facts n me k hk
    refine ⟨hc, hl, Q n me k, hp, f1, f2, f3, f4, f5, f6, ?_, f7⟩
    intro hst
    have hk3 : k + skip me < 3 := by
      by_contra hge
      have : 3 ≤ k + skip me := by omega
      simp [Q, this] at hst
    exact ⟨_, Q_step cfg n w me k hk3 hp⟩
  · intro w hr
    obtain ⟨w1, hr1, _, hall⟩ :=
      invWrong_finish cfg n np w.todo w (invWrong_reach cfg n np hnp w hr) (le_refl _)
    exact ⟨w1, hr1, hall⟩

/-! ## Two processes that both send first -/

theorem noDispatchBody_two (n me : Nat) :
    noDispatchBody n 2 me
      = sendFirst n 1
          ([.printReceiving, .recv .Y n 1 tag, .printY0] ++ responderBranch n ++ epilogue) := by
  rfl

theorem specSymmetricBody_zero (n : Nat) :
    specSymmetricBody n 2 0
      = sendFirst n 1 ([.printReceiving, .recv .Y n 1 tag, .printY0] ++ epilogue) := by
  rfl

theorem specSymmetricBody_one (n : Nat) :
    specSymmetricBody n 2 1
      = sendFirst n 0 ([.printReceiving, .recv .Y n 0 tag, .printY0] ++ epilogue) := by
  rfl

theorem initProc_sendFirst (cfg : Config) (n me dest : Nat) (rest : List Action) :
    initProc (sendFirst n dest rest) me = S cfg n me dest rest 0 := by
  simp [initProc, S, sendFirst, prologue, Proc.record, phaseOf, Action.isComm]

theorem initWorld_sendFirst (cfg : Config) (n d0 : Nat) (r0 : List Action) (d1 : Nat)
    (r1 : List Action) (prog : Nat → Nat → List Action)
    (h0 : prog 2 0 = sendFirst n d0 r0) (h1 : prog 2 1 = sendFirst n d1 r1) :
    initWorld prog 2 = V cfg n d0 r0 d1 r1 0 0 := by
  simp [initWorld, V, List.range_succ, h0, h1, initProc_sendFirst cfg]

theorem nd_step0 (cfg : Config) (n d0 : Nat) (r0 : List Action) (d1 : Nat)
    (r1 : List Action) (a b : Nat) (ha : a ≤ 5) :
    stepRank cfg 0 (V cfg n d0 r0 d1 r1 a b) = some (V cfg n d0 r0 d1 r1 (a + 1) b) := by
  interval_cases a <;>
    simp [stepRank, V, S, sendFirst, prologue, exec, Proc.record, phaseOf, Proc.setBuf,
      Action.isComm, enterCall, initLoop_fresh]

theorem nd_step1 (cfg : Config) (n d0 : Nat) (r0 : List Action) (d1 : Nat)
    (r1 : List Action) (a b : Nat) (hb : b ≤ 5) :
    stepRank cfg 1 (V cfg n d0 r0 d1 r1 a b) = some (V cfg n d0 r0 d1 r1 a (b + 1)) := by
  interval_cases b <;>
    simp [stepRank, V, S, sendFirst, prologue, exec, Proc.record, phaseOf, Proc.setBuf,
      Action.isComm, enterCall, initLoop_fresh]

theorem S_not_receiving (cfg : Config) (n me dest : Nat) (rest : List Action) (k : Nat)
    (hk : k ≤ 6) :
    (S cfg n me dest rest k).inCall = false ∨
      (S cfg n me dest rest k).prog = .send .X n dest tag :: rest := by
  interval_cases k <;> simp [S, sendFirst, prologue]

theorem send_blocked (cfg : Config) (w : World) (r : Nat) (p : Proc) (b : BufId)
    (count dest tg : Nat) (rest : List Action) (hp : w.procs[r]? = some p)
    (hprog : p.prog = .send b count dest tg :: rest) (hin : p.inCall = true)
    (hthr : cfg.threshold < count)
    (hdest : ∀ q, w.procs[dest]? = some q →
      q.inCall = false ∨ ∃ b1 c1 d1 t1 rest1, q.prog = .send b1 c1 d1 t1 :: rest1) :
    stepRank cfg r w = none := by
  have hnot : ¬ count ≤ cfg.threshold := by omega
  unfold stepRank
  rw [hp]
  simp only [hprog, hin, if_true]
  split_ifs
  · rfl
  · unfold completeSend
    cases hd : sendData p b count with
    | none => rfl
    | some data =>
      simp only [if_neg hnot]
      cases hq : w.procs[dest]? with
      | none => rfl
      | some q =>
        rcases hdest q hq with hf | ⟨b1, c1, d1, t1, rest1, hqp⟩
        · simp [hf]
        · simp [hqp]

theorem nd_blocked0 (cfg : Config) (n d0 : Nat) (r0 : List Action) (d1 : Nat)
    (r1 : List Action) (b : Nat) (hthr : cfg.threshold < n) (hb : b ≤ 6) :
    stepRank cfg 0 (V cfg n d0 r0 d1 r1 6 b) = none := by
  refine send_blocked cfg _ 0 (S cfg n 0 d0 r0 6) .X n d0 tag r0 rfl ?_ ?_ hthr ?_
  · simp [S, sendFirst, prologue]
  · simp [S]
  · intro q hq
    match d0, hq with
    | 0, hq =>
      simp only [V, List.getElem?_cons_zero, Option.some.injEq] at hq
      subst hq
      exact Or.inr ⟨.X, n, 0, tag, r0, by simp [S, sendFirst, prologue]⟩
    | 1, hq =>
      simp only [V, List.getElem?_cons_succ, List.getElem?_cons_zero, Option.some.injEq] at hq
      subst hq
      rcases S_not_receiving cfg n 1 d1 r1 b hb with h | h
      · exact Or.inl h
      · exact Or.inr ⟨.X, n, d1, tag, r1, h⟩
    | k + 2, hq => simp [V] at hq

theorem nd_blocked1 (cfg : Config) (n d0 : Nat) (r0 : List Action) (d1 : Nat)
    (r1 : List Action) (a : Nat) (hthr : cfg.threshold < n) (ha : a ≤ 6) :
    stepRank cfg 1 (V cfg n d0 r0 d1 r1 a 6) = none := by
  refine send_blocked cfg _ 1 (S cfg n 1 d1 r1 6) .X n d1 tag r1 rfl ?_ ?_ hthr ?_
  · simp [S, sendFirst, prologue]
  · simp [S]
  · intro q hq
    match d1, hq with
    | 0, hq =>
      simp only [V, List.getElem?_cons_zero, Option.some.injEq] at hq
      subst hq
      rcases S_not_receiving cfg n 0 d0 r0 a ha with h | h
      · exact Or.inl h
      · exact Or.inr ⟨.X, n, d0, tag, r0, h⟩
    | 1, hq =>
      simp only [V, List.getElem?_cons_succ, List.getElem?_cons_zero, Option.some.injEq] at hq
      subst hq
      exact Or.inr ⟨.X, n, 1, tag, r1, by simp [S, sendFirst, prologue]⟩
    | k + 2, hq => simp [V] at hq

theorem nd_ge (cfg : Config) (n d0 : Nat) (r0 : List Action) (d1 : Nat)
    (r1 : List Action) (a b r : Nat) (hr : 2 ≤ r) :
    stepRank cfg r (V cfg n d0 r0 d1 r1 a b) = none := by
  have : (V cfg n d0 r0 d1 r1 a b).procs[r]? = none := by
    simp [V]
    omega
  simp [stepRank, this]

theorem nd_step (cfg : Config) (n d0 : Nat) (r0 : List Action) (d1 : Nat)
    (r1 : List Action) (a b : Nat) (hthr : cfg.threshold < n)
    (ha : a ≤ 6) (hb : b ≤ 6) (w : World) (hs : Step cfg (V cfg n d0 r0 d1 r1 a b) w) :
    ∃ c d, c ≤ 6 ∧ d ≤ 6 ∧ w = V cfg n d0 r0 d1 r1 c d := by
  obtain ⟨r, hr⟩ := hs
  rcases Nat.lt_or_ge r 2 with hlt | hge
  · interval_cases r
    · by_cases h6 : a = 6
      · subst h6
        rw [nd_blocked0 cfg n d0 r0 d1 r1 b hthr hb] at hr
        exact absurd hr (by simp)
      · rw [nd_step0 cfg n d0 r0 d1 r1 a b (by omega)] at hr
        simp only [Option.some.injEq] at hr
        exact ⟨a + 1, b, by omega, hb, hr.symm⟩
    · by_cases h6 : b = 6
      · subst h6
        rw [nd_blocked1 cfg n d0 r0 d1 r1 a hthr ha] at hr
        exact absurd hr (by simp)
      · rw [nd_step1 cfg n d0 r0 d1 r1 a b (by omega)] at hr
        simp only [Option.some.injEq] at hr
        exact ⟨a, b + 1, ha, by omega, hr.symm⟩
  · rw [nd_ge cfg n d0 r0 d1 r1 a b r hge] at hr
    exact absurd hr (by simp)

theorem nd_inv (cfg : Config) (n d0 : Nat) (r0 : List Action) (d1 : Nat)
    (r1 : List Action) (hthr : cfg.threshold < n) (w : World)
    (hr : Reach cfg (V cfg n d0 r0 d1 r1 0 0) w) :
    ∃ a b, a ≤ 6 ∧ b ≤ 6 ∧ w = V cfg n d0 r0 d1 r1 a b := by
  induction hr with
  | refl => exact ⟨0, 0, by omega, by omega, rfl⟩
  | tail _ hs ih =>
    obtain ⟨a, b, ha, hb, rfl⟩ := ih
    exact nd_step cfg n d0 r0 d1 r1 a b hthr ha hb _ hs

theorem nd_to_deadlock (cfg : Config) (n d0 : Nat) (r0 : List Action) (d1 : Nat)
    (r1 : List Action) :
    ∀ (k a b : Nat), a ≤ 6 → b ≤ 6 → 12 - (a + b) ≤ k →
      Reach cfg (V cfg n d0 r0 d1 r1 a b) (V cfg n d0 r0 d1 r1 6 6) := by
  intro k
  induction k with
  | zero =>
    intro a b ha hb hk
    have h1 : a = 6 := by omega
    have h2 : b = 6 := by omega
    subst h1
    subst h2
    exact Relation.ReflTransGen.refl
  | succ k ih =>
    intro a b ha hb hk
    by_cases h6 : a = 6
    · by_cases h6' : b = 6
      · subst h6
        subst h6'
        exact Relation.ReflTransGen.refl
      · exact Relation.ReflTransGen.head ⟨1, nd_step1 cfg n d0 r0 d1 r1 a b (by omega)⟩
          (ih a (b + 1) ha (by omega) (by omega))
    · exact Relation.ReflTransGen.head ⟨0, nd_step0 cfg n d0 r0 d1 r1 a b (by omega)⟩
        (ih (a + 1) b (by omega) hb (by omega))

theorem S_phase (cfg : Config) (n me dest : Nat) (rest : List Action) (k : Nat) (hk : k ≤ 6) :
    phaseOf (S cfg n me dest rest k) = if k = 6 then .Sending else .Idle := by
  interval_cases k <;> simp [S, phaseOf, sendFirst, prologue, Action.isComm]

theorem S_facts (cfg : Config) (n me dest : Nat) (rest : List Action) (k : Nat) (hk : k ≤ 6) :
    (S cfg n me dest rest k).trace.countP Ev.sendReturned = 0 ∧
      (S cfg n me dest rest k).status = none := by
  interval_cases k <;> simp [S, Ev.sendReturned]

theorem deadlock_gen (cfg : Config) (n d0 : Nat) (r0 : List Action) (d1 : Nat)
    (r1 : List Action) (hthr : cfg.threshold < n) (w : World)
    (hr : Reach cfg (V cfg n d0 r0 d1 r1 0 0) w) :
    w.chan = [] ∧ w.log = [] ∧
    (∃ p0 p1, w.procs = [p0, p1] ∧ ∀ p, p = p0 ∨ p = p1 →
      p.trace.countP Ev.sendReturned = 0 ∧ p.status = none ∧
      (phaseOf p = .Idle ∨ phaseOf p = .Sending)) ∧
    ((∀ r, stepRank cfg r w = none) →
      w.phase 0 = some .Sending ∧ w.phase 1 = some .Sending ∧
      ∃ p0 p1, w.procs = [p0, p1] ∧
        p0.out = [.msgSize (msgBytes n cfg.sizeofInt cfg.sizeBits), .sending 0] ∧
        p1.out = [.msgSize (msgBytes n cfg.sizeofInt cfg.sizeBits), .sending 1]) ∧
    ∃ w1, Reach cfg w w1 ∧ w1.phase 0 = some .Sending ∧ w1.phase 1 = some .Sending ∧
      ∀ r, stepRank cfg r w1 = none := by
  have hdead : (V cfg n d0 r0 d1 r1 6 6).phase 0 = some .Sending ∧
      (V cfg n d0 r0 d1 r1 6 6).phase 1 = some .Sending ∧
      ∀ r, stepRank cfg r (V cfg n d0 r0 d1 r1 6 6) = none := by
    refine ⟨?_, ?_, ?_⟩
    · simp only [World.phase, V, List.getElem?_cons_zero, Option.map_some']
      rw [S_phase cfg n 0 d0 r0 6 (le_refl _)]
      rfl
    · simp only [World.phase, V, List.getElem?_cons_succ, List.getElem?_cons_zero,
        Option.map_some']
      rw [S_phase cfg n 1 d1 r1 6 (le_refl _)]
      rfl
    · intro r
      rcases Nat.lt_or_ge r 2 with hlt | hge
      · interval_cases r
        · exact nd_blocked0 cfg n d0 r0 d1 r1 6 hthr (le_refl _)
        · exact nd_blocked1 cfg n d0 r0 d1 r1 6 hthr (le_refl _)
      · exact nd_ge cfg n d0 r0 d1 r1 6 6 r hge
  obtain ⟨a, b, ha, hb, rfl⟩ := nd_inv cfg n d0 r0 d1 r1 hthr w hr
  refine ⟨rfl, rfl, ⟨S cfg n 0 d0 r0 a, S cfg n 1 d1 r1 b, rfl, ?_⟩, ?_,
    ⟨V cfg n d0 r0 d1 r1 6 6, nd_to_deadlock cfg n d0 r0 d1 r1 12 a b ha hb (by omega), hdead⟩⟩
  · rintro p (rfl | rfl)
    · refine ⟨(S_facts cfg n 0 d0 r0 a ha).1, (S_facts cfg n 0 d0 r0 a ha).2, ?_⟩
      rw [S_phase cfg n 0 d0 r0 a ha]
      split_ifs <;> simp
    · refine ⟨(S_facts cfg n 1 d1 r1 b hb).1, (S_facts cfg n 1 d1 r1 b hb).2, ?_⟩
      rw [S_phase cfg n 1 d1 r1 b hb]
      split_ifs <;> simp
  · intro hstuck
    have ha6 : a = 6 := by
      by_contra hne
      have := hstuck 0
      rw [nd_step0 cfg n d0 r0 d1 r1 a b (by omega)] at this
      exact absurd this (by simp)
    have hb6 : b = 6 := by
      by_contra hne
      have := hstuck 1
      rw [nd_step1 cfg n d0 r0 d1 r1 a b (by omega)] at this
      exact absurd this (by simp)
    subst ha6
    subst hb6
    exact ⟨hdead.1, hdead.2.1, S cfg n 0 d0 r0 6, S cfg n 1 d1 r1 6, rfl, by simp [S],
      by simp [S]⟩

theorem deadlock_noDispatch (cfg : Config) (n : Nat) (hthr : cfg.threshold < n) (w : World)
    (hr : Reach cfg (initWorld (noDispatchBody n) 2) w) :
    w.chan = [] ∧ w.log = [] ∧
    (∃ p0 p1, w.procs = [p0, p1] ∧ ∀ p, p = p0 ∨ p = p1 →
      p.trace.countP Ev.sendReturned = 0 ∧ p.status = none ∧
      (phaseOf p = .Idle ∨ phaseOf p = .Sending)) ∧
    ((∀ r, stepRank cfg r w = none) →
      w.phase 0 = some .Sending ∧ w.phase 1 = some .Sending ∧
      ∃ p0 p1, w.procs = [p0, p1] ∧
        p0.out = [.msgSize (msgBytes n cfg.sizeofInt cfg.sizeBits), .sending 0] ∧
        p1.out = [.msgSize (msgBytes n cfg.sizeofInt cfg.sizeBits), .sending 1]) ∧
    ∃ w1, Reach cfg w w1 ∧ w1.phase 0 = some .Sending ∧ w1.phase 1 = some .Sending ∧
      ∀ r, stepRank cfg r w1 = none := by
  rw [initWorld_sendFirst cfg n 1 _ 1 _ (noDispatchBody n) (noDispatchBody_two n 0)
    (noDispatchBody_two n 1)] at hr
  exact deadlock_gen cfg n _ _ _ _ hthr w hr

theorem deadlock_specSymmetric (cfg : Config) (n : Nat) (hthr : cfg.threshold < n)
    (w : World) (hr : Reach cfg (initWorld (specSymmetricBody n) 2) w) :
    w.chan = [] ∧ w.log = [] ∧
    (∃ p0 p1, w.procs = [p0, p1] ∧ ∀ p, p = p0 ∨ p = p1 →
      p.trace.countP Ev.sendReturned = 0 ∧ p.status = none ∧
      (phaseOf p = .Idle ∨ phaseOf p = .Sending)) ∧
    ((∀ r, stepRank cfg r w = none) →
      w.phase 0 = some .Sending ∧ w.phase 1 = some .Sending ∧
      ∃ p0 p1, w.procs = [p0, p1] ∧
        p0.out = [.msgSize (msgBytes n cfg.sizeofInt cfg.sizeBits), .sending 0] ∧
        p1.out = [.msgSize (msgBytes n cfg.sizeofInt cfg.sizeBits), .sending 1]) ∧
    ∃ w1, Reach cfg w w1 ∧ w1.phase 0 = some .Sending ∧ w1.phase 1 = some .Sending ∧
      ∀ r, stepRank cfg r w1 = none := by
  rw [initWorld_sendFirst cfg n 1 _ 0 _ (specSymmetricBody n) (specSymmetricBody_zero n)
    (specSymmetricBody_one n)] at hr
  exact deadlock_gen cfg n _ _ _ _ hthr w hr

theorem cell_init_gen (cfg : Config) (n : Nat) (hn : 0 < n) :
    (W cfg n 0 3).cell 1 .Y 0 = some 1 := by
  simp [World.cell, W, L1, Proc.buf, hn]

theorem out_gen (cfg : Config) (n : Nat) (hn : 0 < n) (w : World)
    (hr : Reach cfg (initWorld (mainBody n) 2) w) (hex : w.exited 0 = true) :
    ∃ p0 p1, w.procs = [p0, p1] ∧
      p0.out.head? = some (.msgSize (msgBytes n cfg.sizeofInt cfg.sizeBits)) := by
  obtain ⟨i, j, hv, rfl⟩ := reach_inv cfg n hn w hr
  have hi := W_exited0 cfg n i j hv.1 hex
  subst hi
  exact ⟨L0 cfg n 13, L1 cfg n j, rfl, by simp [L0, out0]⟩

theorem final_trace_gen (cfg : Config) (n : Nat) :
    Ev.returned (.send .Y n 0 tag) ∈ (L1 cfg n 9).trace ∧
      Ev.did (.exit 0) ∈ (L0 cfg n 13).trace := by
  constructor
  · simp [L1, trace1]
  · simp [L0, trace0]

theorem run_cons_some (cfg : Config) (r : Nat) (rs : List Nat) (w w1 : World)
    (h : stepRank cfg r w = some w1) : run cfg (r :: rs) w = run cfg rs w1 := by
  simp [run, h]

/-- An explicit schedule of the two-process run for a transport that does not
buffer the message: its 20 transitions lead to the final listed state. -/
theorem run_sched (cfg : Config) (n : Nat) (hn : 0 < n) (hthr : cfg.threshold < n) :
    run cfg [0, 0, 0, 0, 0, 0, 1, 1, 1, 1, 0, 0, 0, 1, 1, 0, 0, 0, 1, 1]
      (initWorld (mainBody n) 2) = some (W cfg n 13 9) := by
  have hnot : ¬ n ≤ cfg.threshold := by omega
  rw [initWorld_eq cfg n]
  have h0_0 : stepRank cfg 0 (W cfg n 0 0) = some (W cfg n 1 0) :=
    step0_local cfg n 0 0 hn (by omega) (by omega) (by omega)
  rw [run_cons_some cfg 0 _ _ _ h0_0]
  have h1_0 : stepRank cfg 0 (W cfg n 1 0) = some (W cfg n 2 0) :=
    step0_local cfg n 1 0 hn (by omega) (by omega) (by omega)
  rw [run_cons_some cfg 0 _ _ _ h1_0]
  have h2_0 : stepRank cfg 0 (W cfg n 2 0) = some (W cfg n 3 0) :=
    step0_local cfg n 2 0 hn (by omega) (by omega) (by omega)
  rw [run_cons_some cfg 0 _ _ _ h2_0]
  have h3_0 : stepRank cfg 0 (W cfg n 3 0) = some (W cfg n 4 0) :=
    step0_local cfg n 3 0 hn (by omega) (by omega) (by omega)
  rw [run_cons_some cfg 0 _ _ _ h3_0]
  have h4_0 : stepRank cfg 0 (W cfg n 4 0) = some (W cfg n 5 0) :=
    step0_local cfg n 4 0 hn (by omega) (by omega) (by omega)
  rw [run_cons_some cfg 0 _ _ _ h4_0]
  have h5_0 : stepRank cfg 0 (W cfg n 5 0) = some (W cfg n 6 0) :=
    step0_local cfg n 5 0 hn (by omega) (by omega) (by omega)
  rw [run_cons_some cfg 0 _ _ _ h5_0]
  have h6_0 : stepRank cfg 1 (W cfg n 6 0) = some (W cfg n 6 1) :=
    step1_local cfg n 6 0 (by omega) (by omega) (by omega)
  rw [run_cons_some cfg 1 _ _ _ h6_0]
  have h6_1 : stepRank cfg 1 (W cfg n 6 1) = some (W cfg n 6 2) :=
    step1_local cfg n 6 1 (by omega) (by omega) (by omega)
  rw [run_cons_some cfg 1 _ _ _ h6_1]
  have h6_2 : stepRank cfg 1 (W cfg n 6 2) = some (W cfg n 6 3) :=
    step1_local cfg n 6 2 (by omega) (by omega) (by omega)
  rw [run_cons_some cfg 1 _ _ _ h6_2]
  have h6_3 : stepRank cfg 1 (W cfg n 6 3) = some (W cfg n 6 4) :=
    step1_local cfg n 6 3 (by omega) (by omega) (by omega)
  rw [run_cons_some cfg 1 _ _ _ h6_3]
  have h6_4 : stepRank cfg 0 (W cfg n 6 4) = some (W cfg n 7 5) := by
    rw [step0_send cfg n 4 (by omega), if_neg hnot, if_pos rfl]
  rw [run_cons_some cfg 0 _ _ _ h6_4]
  have h7_5 : stepRank cfg 0 (W cfg n 7 5) = some (W cfg n 8 5) :=
    step0_local cfg n 7 5 hn (by omega) (by omega) (by omega)
  rw [run_cons_some cfg 0 _ _ _ h7_5]
  have h8_5 : stepRank cfg 0 (W cfg n 8 5) = some (W cfg n 9 5) :=
    step0_local cfg n 8 5 hn (by omega) (by omega) (by omega)
  rw [run_cons_some cfg 0 _ _ _ h8_5]
  have h9_5 : stepRank cfg 1 (W cfg n 9 5) = some (W cfg n 9 6) :=
    step1_local cfg n 9 5 (by omega) (by omega) (by omega)
  rw [run_cons_some cfg 1 _ _ _ h9_5]
  have h9_6 : stepRank cfg 1 (W cfg n 9 6) = some (W cfg n 10 7) := by
    rw [step1_send cfg n 9 (by omega), if_neg hnot, if_pos rfl]
  rw [run_cons_some cfg 1 _ _ _ h9_6]
  have h10_7 : stepRank cfg 0 (W cfg n 10 7) = some (W cfg n 11 7) :=
    step0_local cfg n 10 7 hn (by omega) (by omega) (by omega)
  rw [run_cons_some cfg 0 _ _ _ h10_7]
  have h11_7 : stepRank cfg 0 (W cfg n 11 7) = some (W cfg n 12 7) :=
    step0_local cfg n 11 7 hn (by omega) (by omega) (by omega)
  rw [run_cons_some cfg 0 _ _ _ h11_7]
  have h12_7 : stepRank cfg 0 (W cfg n 12 7) = some (W cfg n 13 7) :=
    step0_local cfg n 12 7 hn (by omega) (by omega) (by omega)
  rw [run_cons_some cfg 0 _ _ _ h12_7]
  have h13_7 : stepRank cfg 1 (W cfg n 13 7) = some (W cfg n 13 8) :=
    step1_local cfg n 13 7 (by omega) (by omega) (by omega)
  rw [run_cons_some cfg 1 _ _ _ h13_7]
  have h13_8 : stepRank cfg 1 (W cfg n 13 8) = some (W cfg n 13 9) :=
    step1_local cfg n 13 8 (by omega) (by omega) (by omega)
  rw [run_cons_some cfg 1 _ _ _ h13_8]
  rfl

theorem run_init1 (cfg : Config) (n : Nat) :
    run cfg [1, 1, 1] (initWorld (mainBody n) 2) = some (W cfg n 0 3) := by
  rw [initWorld_eq cfg n]
  rw [run_cons_some cfg 1 _ _ _
    (step1_local cfg n 0 0 (by omega) (by omega) (by omega))]
  rw [run_cons_some cfg 1 _ _ _
    (step1_local cfg n 0 1 (by omega) (by omega) (by omega))]
  rw [run_cons_some cfg 1 _ _ _
    (step1_local cfg n 0 2 (by omega) (by omega) (by omega))]
  rfl

theorem run_reach (cfg : Config) (sched : List Nat) :
    ∀ (w w1 : World), run cfg sched w = some w1 → Reach cfg w w1 := by
  induction sched with
  | nil =>
    intro w w1 h
    simp only [run, Option.some.injEq] at h
    subst h
    exact Relation.ReflTransGen.refl
  | cons r rs ih =>
    intro w w1 h
    simp only [run] at h
    cases hs : stepRank cfg r w with
    | none => simp [hs] at h
    | some w2 =>
      rw [hs] at h
      exact Relation.ReflTransGen.head ⟨r, hs⟩ (ih w2 w1 h)

theorem report_gen (cfg : Config) (n : Nat) (hn : 0 < n) (w : World)
    (hr : Reach cfg (initWorld (mainBody n) 2) w) :
    ∃ w1, Reach cfg w w1 ∧ w1.exited 0 = true ∧ ∃ p0 p1, w1.procs = [p0, p1] ∧
      p0.out = [.msgSize (msgBytes n cfg.sizeofInt cfg.sizeBits), .sending 0, .receiving 0,
        .yValue 12345] := by
  obtain ⟨i, j, hv, rfl⟩ := reach_inv cfg n hn w hr
  exact ⟨W cfg n 13 9, reach_final cfg n hn 22 i j hv (by omega), (W_final_exited cfg n).1,
    L0 cfg n 13, L1 cfg n 9, rfl, by simp [L0, out0]⟩

theorem run_report (cfg : Config) (n : Nat) (hn : 0 < n) :
    run cfg [0, 0, 0, 0] (initWorld (mainBody n) 2) = some (W cfg n 4 0) ∧
      (L0 cfg n 4).out = [.msgSize (msgBytes n cfg.sizeofInt cfg.sizeBits)] := by
  constructor
  · rw [initWorld_eq cfg n]
    rw [run_cons_some cfg 0 _ _ _
      (step0_local cfg n 0 0 hn (by omega) (by omega) (by omega))]
    rw [run_cons_some cfg 0 _ _ _
      (step0_local cfg n 1 0 hn (by omega) (by omega) (by omega))]
    rw [run_cons_some cfg 0 _ _ _
      (step0_local cfg n 2 0 hn (by omega) (by omega) (by omega))]
    rw [run_cons_some cfg 0 _ _ _
      (step0_local cfg n 3 0 hn (by omega) (by omega) (by omega))]
    rfl
  · simp [L0, out0]

theorem msgBytes_cfg0 : msgBytes msgsize cfg0.sizeofInt cfg0.sizeBits = 1048576 := by
  show msgBytes msgsize 4 64 = 1048576
  rw [msgsize_eq]
  decide

/-! ## The claims -/

/-- C1 (amended): in the two-process run, once rank 0 is `Done` (its receive
has returned), its receive buffer `Y` holds 12345 at every index below
`msgsize`: the content rank 0 put in `X`, echoed by rank 1, not the content 1
that rank 1 initialised its `Y` with. -/
theorem C1_rank0_receives_echo (cfg : Config) (w : World)
    (hr : Reach cfg (initWorld mainProg 2) w) (hdone : w.phase 0 = some .Done) :
    ∀ i, i < msgsize → w.cell 0 .Y i = some 12345 :=
  echo_gen cfg msgsize msgsize_pos w hr hdone

/-- Witness of C1 (amended): the final state of the run under `cfg0`. -/
theorem C1_rank0_receives_echo_witness :
    Reach cfg0 (initWorld mainProg 2) (W cfg0 msgsize 13 9) ∧
      (W cfg0 msgsize 13 9).phase 0 = some .Done ∧ 0 < msgsize ∧
      (W cfg0 msgsize 13 9).cell 0 .Y 0 = some 12345 :=
  ⟨reach_final_init cfg0 msgsize msgsize_pos, (W_final_phase cfg0 msgsize).1, msgsize_pos,
    C1_rank0_receives_echo cfg0 (W cfg0 msgsize 13 9)
      (reach_final_init cfg0 msgsize msgsize_pos) (W_final_phase cfg0 msgsize).1 0 msgsize_pos⟩

/-- Counterexample to C1 as stated: under `cfg0`, three transitions of rank 1
leave element 0 of its `Y` initialised to 1, and the schedule of 20 transitions
below ends with both ranks exited and element 0 of rank 0's `Y` equal to
12345, not 1. -/
theorem C1_counterexample :
    (∃ w1, run cfg0 [1, 1, 1] (initWorld mainProg 2) = some w1 ∧ w1.cell 1 .Y 0 = some 1) ∧
    (∃ w2, run cfg0 [0, 0, 0, 0, 0, 0, 1, 1, 1, 1, 0, 0, 0, 1, 1, 0, 0, 0, 1, 1]
        (initWorld mainProg 2) = some w2 ∧
      w2.exited 0 = true ∧ w2.exited 1 = true ∧
      w2.cell 0 .Y 0 = some 12345 ∧ w2.cell 0 .Y 0 ≠ some 1) := by
  have hy : (W cfg0 msgsize 13 9).cell 0 .Y 0 = some 12345 :=
    echo_gen cfg0 msgsize msgsize_pos _ (reach_final_init cfg0 msgsize msgsize_pos)
      (W_final_phase cfg0 msgsize).1 0 msgsize_pos
  refine ⟨⟨W cfg0 msgsize 0 3, run_init1 cfg0 msgsize, cell_init_gen cfg0 msgsize msgsize_pos⟩,
    W cfg0 msgsize 13 9, run_sched cfg0 msgsize msgsize_pos msgsize_pos,
    (W_final_exited cfg0 msgsize).1, (W_final_exited cfg0 msgsize).2, hy, ?_⟩
  intro h
  rw [hy] at h
  exact absurd h (by decide)

/-- C2: in the two-process run, once both ranks are `Done`, the buffer `Y`
rank 0 received into equals the buffer `X` it sent, element for element, and
so does `Y` of rank 1; the transfers completed are that of rank 0's message to
rank 1 and, after it, that of rank 1's message to rank 0. -/
theorem C2_echo_round_trip (cfg : Config) (w : World)
    (hr : Reach cfg (initWorld mainProg 2) w)
    (h0 : w.phase 0 = some .Done) (h1 : w.phase 1 = some .Done) :
    ∃ p0 p1 x, w.procs = [p0, p1] ∧ x.length = msgsize ∧
      p0.X = some x ∧ p0.Y = some x ∧ p1.Y = some x ∧
      w.log = [⟨0, 1, tag, msgsize, 0, tag, msgsize⟩, ⟨1, 0, tag, msgsize, 1, tag, msgsize⟩] :=
  echo2_gen cfg msgsize msgsize_pos w hr h0 h1

/-- Witness of C2: the final state of the run under `cfgEager`. -/
theorem C2_echo_round_trip_witness :
    Reach cfgEager (initWorld mainProg 2) (W cfgEager msgsize 13 9) ∧
      (W cfgEager msgsize 13 9).phase 0 = some .Done ∧
      (W cfgEager msgsize 13 9).phase 1 = some .Done ∧
      ∃ p0 p1 x, (W cfgEager msgsize 13 9).procs = [p0, p1] ∧ x.length = msgsize ∧
        p0.X = some x ∧ p0.Y = some x ∧ p1.Y = some x ∧
        (W cfgEager msgsize 13 9).log
          = [⟨0, 1, tag, msgsize, 0, tag, msgsize⟩, ⟨1, 0, tag, msgsize, 1, tag, msgsize⟩] :=
  ⟨reach_final_init cfgEager msgsize msgsize_pos, (W_final_phase cfgEager msgsize).1,
    (W_final_phase cfgEager msgsize).2,
    C2_echo_round_trip cfgEager (W cfgEager msgsize 13 9)
      (reach_final_init cfgEager msgsize msgsize_pos) (W_final_phase cfgEager msgsize).1
      (W_final_phase cfgEager msgsize).2⟩

/-- C3: the safe protocol never deadlocks, whatever the threshold of the
transport (`cfg` is arbitrary): every reachable state of the two-process run in
which not both ranks are `Done`, and even every one in which not both have
exited, has a transition; from every reachable state the run can be continued
to a state in which both ranks are `Done` and have exited; and no run has more
than 22 transitions. -/
theorem C3_safe_protocol_never_deadlocks (cfg : Config) :
    (∀ w, Reach cfg (initWorld mainProg 2) w →
        ¬(w.phase 0 = some .Done ∧ w.phase 1 = some .Done) →
        ∃ r w1, stepRank cfg r w = some w1) ∧
    (∀ w, Reach cfg (initWorld mainProg 2) w →
        ¬(w.exited 0 = true ∧ w.exited 1 = true) → ∃ r w1, stepRank cfg r w = some w1) ∧
    (∀ w, Reach cfg (initWorld mainProg 2) w →
        ∃ w1, Reach cfg w w1 ∧ w1.phase 0 = some .Done ∧ w1.phase 1 = some .Done ∧
          w1.exited 0 = true ∧ w1.exited 1 = true ∧ ∀ r, stepRank cfg r w1 = none) ∧
    (∀ sched w, run cfg sched (initWorld mainProg 2) = some w → sched.length ≤ 22) :=
  safe_gen cfg msgsize msgsize_pos

/-- C4: for a group size `np` other than 2 and a rank `me < np`, the early
exit behaves as `WrongSizeExit` says: no send, no receive, no buffer; rank 0
prints the one message and the other ranks nothing; every process calls the
shutdown and exits with status 0. -/
theorem C4_wrong_group_size (cfg : Config) (np me : Nat) (hnp : np ≠ 2) (hme : me < np) :
    WrongSizeExit cfg np me := by
  obtain ⟨h1, h2⟩ := wrong_gen cfg msgsize np me hnp hme
  exact ⟨h1, h2, rfl⟩

/-- Witness of C4: rank 0 of a group of 1, and ranks 0 and 2 of a group of 3. -/
theorem C4_wrong_group_size_witness :
    WrongSizeExit cfg0 1 0 ∧ WrongSizeExit cfg0 3 0 ∧ WrongSizeExit cfg0 3 2 :=
  ⟨C4_wrong_group_size cfg0 1 0 (by decide) (by decide),
    C4_wrong_group_size cfg0 3 0 (by decide) (by decide),
    C4_wrong_group_size cfg0 3 2 (by decide) (by decide)⟩

/-- C5: when the dispatch is removed, so that both processes send first, and
the message is above the threshold of the transport, the two-process run
deadlocks as `SymmetricDeadlock` says: no process ever returns from its send or
becomes `Done`, the only state without transition has both processes inside
their first send, and the run always ends there.  This holds of `main` with
the `if`/`else` removed, as in the comment of the source, and of the symmetric
exchange as the spec words it; the lines printed before the hang are those the
comment records. -/
theorem C5_symmetric_deadlock (cfg : Config) (h : cfg.threshold < msgsize) :
    SymmetricDeadlock cfg mainProgNoDispatch ∧ SymmetricDeadlock cfg specSymmetricProg ∧
      [Out.msgSize (msgBytes msgsize 4 64), .sending 0, .msgSize (msgBytes msgsize 4 64),
          .sending 1].map Out.render
        = ["Message size is 1048576 bytes\n", "Process 0 sending to process 1\n",
           "Message size is 1048576 bytes\n", "Process 1 sending to process 1\n"] := by
  refine ⟨fun w hr => deadlock_noDispatch cfg msgsize h w hr,
    fun w hr => deadlock_specSymmetric cfg msgsize h w hr, ?_⟩
  rw [msgsize_eq]
  decide

/-- Witness of C5: the transport of `cfg0` buffers nothing. -/
theorem C5_symmetric_deadlock_witness :
    cfg0.threshold < msgsize ∧
      (SymmetricDeadlock cfg0 mainProgNoDispatch ∧ SymmetricDeadlock cfg0 specSymmetricProg ∧
        [Out.msgSize (msgBytes msgsize 4 64), .sending 0, .msgSize (msgBytes msgsize 4 64),
            .sending 1].map Out.render
          = ["Message size is 1048576 bytes\n", "Process 0 sending to process 1\n",
             "Message size is 1048576 bytes\n", "Process 1 sending to process 1\n"]) :=
  ⟨msgsize_pos, C5_symmetric_deadlock cfg0 msgsize_pos⟩

/-- C6: in the two-process run, once both ranks are `Done`, delivery was
exactly once in the sense of `World.exactlyOnce`, with `msgsize = 262144` and
`tag = 42`. -/
theorem C6_exactly_once_delivery (cfg : Config) (w : World)
    (hr : Reach cfg (initWorld mainProg 2) w)
    (h0 : w.phase 0 = some .Done) (h1 : w.phase 1 = some .Done) :
    w.exactlyOnce ∧ msgsize = 262144 ∧ tag = 42 :=
  ⟨once_gen cfg msgsize msgsize_pos w hr h0 h1, msgsize_eq, rfl⟩

/-- Witness of C6: the final state of the run under `cfg0`. -/
theorem C6_exactly_once_delivery_witness :
    Reach cfg0 (initWorld mainProg 2) (W cfg0 msgsize 13 9) ∧
      ((W cfg0 msgsize 13 9).exactlyOnce ∧ msgsize = 262144 ∧ tag = 42) :=
  ⟨reach_final_init cfg0 msgsize msgsize_pos,
    C6_exactly_once_delivery cfg0 (W cfg0 msgsize 13 9)
      (reach_final_init cfg0 msgsize msgsize_pos) (W_final_phase cfg0 msgsize).1
      (W_final_phase cfg0 msgsize).2⟩

/-- C7: `msgsize = 256 * K` with `K = 1024` is 262144 elements, the product
stays within the range of a 32-bit signed `int` (so it is computed without
overflow), and `msgsize * sizeof(int)` for a 4-byte `int` is 1048576 bytes in
a 32-bit or 64-bit `size_t`, which rank 0 reports as its first line,
`Message size is 1048576 bytes`: the line is the first of every exited rank 0,
every run of the two processes can be continued until rank 0 has exited with
its four lines printed, and under `cfg0` the first four transitions of rank 0
print exactly that line. -/
theorem C7_message_size :
    K = 1024 ∧ 256 * K = 262144 ∧ (-2147483648 ≤ 256 * K ∧ 256 * K ≤ 2147483647) ∧
    msgsizeInt = 256 * K ∧ msgsize = 262144 ∧
    msgBytes msgsize 4 32 = 1048576 ∧ msgBytes msgsize 4 64 = 1048576 ∧
    (Out.msgSize (msgBytes msgsize 4 64)).render = "Message size is 1048576 bytes\n" ∧
    (∀ cfg w, Reach cfg (initWorld mainProg 2) w → w.exited 0 = true →
      ∃ p0 p1, w.procs = [p0, p1] ∧
        p0.out.head? = some (.msgSize (msgBytes msgsize cfg.sizeofInt cfg.sizeBits))) ∧
    (∀ cfg w, Reach cfg (initWorld mainProg 2) w →
      ∃ w1, Reach cfg w w1 ∧ w1.exited 0 = true ∧ ∃ p0 p1, w1.procs = [p0, p1] ∧
        p0.out = [.msgSize (msgBytes msgsize cfg.sizeofInt cfg.sizeBits), .sending 0,
          .receiving 0, .yValue 12345]) ∧
    (∃ w p0 p1, run cfg0 [0, 0, 0, 0] (initWorld mainProg 2) = some w ∧
      w.procs = [p0, p1] ∧ p0.out = [.msgSize 1048576] ∧
      p0.out.map Out.render = ["Message size is 1048576 bytes\n"]) := by
  refine ⟨rfl, by decide, by decide, by decide, msgsize_eq, ?_, ?_, ?_, ?_, ?_, ?_⟩
  · rw [msgsize_eq]; decide
  · rw [msgsize_eq]; decide
  · rw [msgsize_eq]; decide
  · exact fun cfg w hr hex => out_gen cfg msgsize msgsize_pos w hr hex
  · exact fun cfg w hr => report_gen cfg msgsize msgsize_pos w hr
  · have hout : (L0 cfg0 msgsize 4).out = [.msgSize 1048576] := by
      rw [(run_report cfg0 msgsize msgsize_pos).2, msgBytes_cfg0]
    refine ⟨W cfg0 msgsize 4 0, L0 cfg0 msgsize 4, L1 cfg0 msgsize 0,
      (run_report cfg0 msgsize msgsize_pos).1, rfl, hout, ?_⟩
    rw [hout]
    decide

/-- C8: a transition of a process whose current call is a send (entering the
send or returning from it) leaves both its buffers as they are; and in every
reachable state of the two-process run, `X` of either rank holds 12345 at
every position once the initialisation loop has run, and `Y` of rank 1 holds
the received content from the return of its receive on, so before, during and
after its send. -/
theorem C8_send_frame (cfg : Config) :
    (∀ (w w1 : World) (r : Nat) (p : Proc) (b : BufId) (count dest tg : Nat)
        (rest : List Action),
        w.procs[r]? = some p → p.prog = .send b count dest tg :: rest →
        stepRank cfg r w = some w1 →
        ∃ p1, w1.procs[r]? = some p1 ∧ p1.X = p.X ∧ p1.Y = p.Y) ∧
    (∀ w, Reach cfg (initWorld mainProg 2) w →
      ∃ p0 p1, w.procs = [p0, p1] ∧
        (Ev.did (.initXY msgsize) ∈ p0.trace → p0.X = some (List.replicate msgsize 12345)) ∧
        (Ev.did (.initXY msgsize) ∈ p1.trace → p1.X = some (List.replicate msgsize 12345)) ∧
        (Ev.returned (.recv .Y msgsize 0 tag) ∈ p1.trace →
          p1.Y = some (List.replicate msgsize 12345))) ∧
    (∃ w p0 p1, Reach cfg (initWorld mainProg 2) w ∧ w.procs = [p0, p1] ∧
      Ev.returned (.send .Y msgsize 0 tag) ∈ p1.trace ∧ Ev.did (.exit 0) ∈ p0.trace) := by
  refine ⟨fun w w1 r p b count dest tg rest hp hprog hs =>
      send_frame cfg w w1 r p b count dest tg rest hp hprog hs,
    fun w hr => frame_gen cfg msgsize msgsize_pos w hr,
    W cfg msgsize 13 9, L0 cfg msgsize 13, L1 cfg msgsize 9,
    reach_final_init cfg msgsize msgsize_pos, rfl, (final_trace_gen cfg msgsize).1,
    (final_trace_gen cfg msgsize).2⟩

/-- C9: every reachable state of the two-process run satisfies
`World.machineOK`: rank 0 passes through `Idle`, `Sending`, `Idle`,
`Receiving`, `Done` and rank 1 through `Idle`, `Receiving`, `Idle`, `Sending`,
`Done`, in that order; a process is `Done` only when its send and its receive
have returned; the shutdown is called at most once, only in `Done`, and exactly
once by the time the process has exited. -/
theorem C9_endpoint_state_machine (cfg : Config) (w : World)
    (hr : Reach cfg (initWorld mainProg 2) w) : w.machineOK cfg :=
  machine_gen cfg msgsize msgsize_pos w hr

/-- Witness of C9: the final state of the run under `cfg0`. -/
theorem C9_endpoint_state_machine_witness :
    Reach cfg0 (initWorld mainProg 2) (W cfg0 msgsize 13 9) ∧
      (W cfg0 msgsize 13 9).machineOK cfg0 :=
  ⟨reach_final_init cfg0 msgsize msgsize_pos,
    C9_endpoint_state_machine cfg0 (W cfg0 msgsize 13 9)
      (reach_final_init cfg0 msgsize msgsize_pos)⟩

/-- C10: a rank `me < np` that passes the group-size check is safe in the
sense of `DispatchSafe`: it is 0 or 1, the `else` branch runs only for 1, the
peer of every call is a rank of the group other than the caller, and no
receive can fail with a size mismatch. -/
theorem C10_dispatch_safe (np me : Nat) (hme : me < np) (hnp : wrongGroupSize np = false) :
    DispatchSafe np me := by
  have h2 : np = 2 := by simpa [wrongGroupSize] using hnp
  subst h2
  have hgen : ∀ cfg w, Reach cfg (initWorld mainProg 2) w →
      (∀ p ∈ w.procs, p.failed = false) ∧
      ∀ t ∈ w.log, t.count = t.capacity ∧ t.count = msgsize ∧ t.recvSource = t.src ∧
        t.recvTag = t.tg :=
    fun cfg w hr => nofail_gen cfg msgsize msgsize_pos w hr
  interval_cases me
  · refine ⟨Or.inl rfl, fun h => absurd rfl h, ?_, ?_, hgen⟩ <;>
      simp only [mainProg, mainBody_two_zero, prologue, initiatorBranch, epilogue,
        List.cons_append, List.nil_append, List.mem_cons, List.mem_singleton,
        Action.send.injEq, Action.recv.injEq, reduceCtorEq, false_or, or_false,
        List.not_mem_nil] <;>
      rintro b c d t ⟨-, hc, rfl, ht⟩ <;> exact ⟨by omega, by omega, hc, ht⟩
  · refine ⟨Or.inr rfl, fun _ => ⟨rfl, rfl⟩, ?_, ?_, hgen⟩ <;>
      simp only [mainProg, mainBody_two_one, prologue, responderBranch, epilogue,
        List.cons_append, List.nil_append, List.mem_cons, List.mem_singleton,
        Action.send.injEq, Action.recv.injEq, reduceCtorEq, false_or, or_false,
        List.not_mem_nil] <;>
      rintro b c d t ⟨-, hc, rfl, ht⟩ <;> exact ⟨by omega, by omega, hc, ht⟩

/-- Witness of C10: both ranks of a group of two. -/
theorem C10_dispatch_safe_witness : DispatchSafe 2 0 ∧ DispatchSafe 2 1 :=
  ⟨C10_dispatch_safe 2 0 (by decide) (by decide), C10_dispatch_safe 2 1 (by decide) (by decide)⟩
end HPSC
